import Mathlib

/-!
A verification development for the `django_consistency_enforcer` library.

The Python source is shallowly embedded: Python type/annotation objects become
the inductive `Ann`, the signature model (`FunctionArg`, `Function`,
`DispatchFunction`), the route model (`Where`, `CapturedArg`, `RawPatternPart`,
`RawPattern`, `ViewPattern`), the violation model (`Incorrect`, `Violation`)
and the deduplicating aggregator (`ErrorContainer`) are translated
structure-for-structure from `_functions.py`, `_display.py`, `_raw_patterns.py`,
`_errors.py`, `_view_patterns.py`; the scenario checks and the orchestrator are
translated from `_scenarios.py` and `_test_runner.py`.

Python dictionaries (insertion ordered) are modelled as association lists where
inserting a fresh key appends and updating an existing key rewrites in place;
Python sets used only through membership/`add` are modelled as lists with
membership-guarded insertion.  Identifiers that in the source are called
"annotation(s)" are spelled `anno`/`Ann` here.
-/

/--
Python annotation/type objects as the shallow embedding sees them: the
universal `typing.Any` marker, the `object` base class, a plain named type,
a union type (`X | Y` or `typing.Union[...]`, whose `typing.get_args` are its
members), and a parameterized generic `base[args...]` (whose
`typing.get_origin` is `base` and `typing.get_args` are `args`).
Equality of `Ann` models Python `==` between these objects.
-/
inductive Ann where
  | any
  | obj
  | typ (name : String)
  | union (members : List Ann)
  | app (base : String) (args : List Ann)

/-- Boolean structural equality on `Ann` (with its nested lists). -/
def Ann.beq : Ann → Ann → Bool
  | .any, .any => true
  | .obj, .obj => true
  | .typ a, .typ b => a == b
  | .union xs, .union ys => beqList xs ys
  | .app a xs, .app b ys => a == b && beqList xs ys
  | _, _ => false
where beqList : List Ann → List Ann → Bool
  | [], [] => true
  | x :: xs, y :: ys => Ann.beq x y && beqList xs ys
  | _, _ => false

theorem Ann.beq_iff : ∀ a b : Ann, Ann.beq a b = true ↔ a = b := by
  intro a
  induction a using Ann.rec
    (motive_2 := fun xs => ∀ ys, Ann.beq.beqList xs ys = true ↔ xs = ys) with
  | any => intro b; cases b <;> simp [Ann.beq]
  | obj => intro b; cases b <;> simp [Ann.beq]
  | typ n => intro b; cases b <;> simp [Ann.beq]
  | union xs ih => intro b; cases b <;> simp_all [Ann.beq]
  | app s xs ih => intro b; cases b <;> simp_all [Ann.beq]
  | nil => rename_i ys; cases ys <;> simp [Ann.beq.beqList]
  | cons x xs ihx ihxs => rename_i ys; cases ys <;> simp_all [Ann.beq.beqList]

instance : DecidableEq Ann := fun a b =>
  decidable_of_iff (Ann.beq a b = true) (Ann.beq_iff a b)

/--
`typing.get_origin` on the objects `Ann` models: the base of a parameterized
generic, and nothing for the others.  (For a union Python returns the
`typing.Union`/`types.UnionType` sentinel; the configuration lists this origin
is compared against hold type objects, never that sentinel, so the sentinel is
not modelled and a union origin yields no member of such a list.)
-/
def Ann.getOrigin : Ann → Option Ann
  | .app base _ => some (.typ base)
  | _ => none

/-- `typing.get_args` on the objects `Ann` models. -/
def Ann.getArgs : Ann → List Ann
  | .union ms => ms
  | .app _ args => args
  | _ => []

/--
From `_functions.py` (`FunctionArg`): one parameter of a handler's signature,
with the source's field `annotation` spelled `anno`.
-/
structure FunctionArg where
  name : String
  required : Bool
  keyword_only : Bool
  anno : Ann
  is_self : Bool := false
  is_variable_keywords : Bool := false
  is_variable_positional : Bool := false
  deriving DecidableEq

/--
The member set an annotation expands to in `FunctionArg.matches`: a union
expands to its `typing.get_args`, anything else is a singleton.  This models
the two `typing.get_origin(...) in (types.UnionType, typing.Union)` branches
of the source.
-/
def Ann.expandMembers : Ann → List Ann
  | .union ms => ms
  | a => [a]

/--
From `_functions.py` (`FunctionArg.matches`): whether this parameter accepts a
required annotation.  True immediately when the parameter's annotation is
`Any`, or the parameter is variadic-keyword annotated `object`; otherwise every
member of the required side must be a member of the accepted side.
-/
def FunctionArg.matches (arg : FunctionArg) (anno : Ann) : Bool :=
  if arg.anno == Ann.any || (arg.is_variable_keywords && arg.anno == Ann.obj) then
    true
  else
    let accepts := Ann.expandMembers arg.anno
    let requires := Ann.expandMembers anno
    requires.all fun req => accepts.contains req

/--
From `_display.py` (`Where`): where a url pattern is defined; four plain
strings (the source's field `namespace` is spelled `namespace_`).
-/
structure Where where
  name : String
  regex : String
  module : String
  namespace_ : String
  deriving DecidableEq

/--
From `_display.py` (`Where.display`): each non-empty property on its own
indented line; the regex line only when `display_regex`.
-/
def Where.display (w : Where) (indent : String := "  ") (display_regex : Bool := true) :
    String :=
  String.intercalate "\n"
    ((if w.module != "" then [indent ++ "module = " ++ w.module] else []) ++
     (if w.name != "" then [indent ++ "name = " ++ w.name] else []) ++
     (if w.namespace_ != "" then [indent ++ "namespace = " ++ w.namespace_] else []) ++
     (if w.regex != "" && display_regex then [indent ++ "regex = " ++ w.regex] else []))

/--
From `_raw_patterns.py` (`CapturedArg`): a named captured group's expected
type and the identity of the converter producing it (the source's field
`annotation` is spelled `anno`; the converter type object is modelled by an
optional identifying name).
-/
structure CapturedArg where
  anno : Ann
  converter : Option String := none
  deriving DecidableEq

/--
From `_raw_patterns.py` (`RawPatternPart`): one part of a url pattern.  The
source's `captured : dict[str, CapturedArg]` is an insertion-ordered
association list here, and `default_arg_names : set[str]` a list used only
through membership.
-/
structure RawPatternPart where
  groups : Nat
  captured : List (String × CapturedArg)
  where_ : Where
  default_arg_names : List String := []
  deriving DecidableEq

/-- The keys of a part's `captured` dictionary, in insertion order. -/
def RawPatternPart.capturedNames (part : RawPatternPart) : List String :=
  part.captured.map fun p => p.1

/--
From `_raw_patterns.py` (`RawPattern`): the parts routing to one view.  The
`callback` callable itself lives outside the shallow embedding; `view_class`
is the identity of the view class when the callback carries one.
-/
structure RawPattern where
  parts : List RawPatternPart
  view_class : Option Ann := none
  where_ : Where
  deriving DecidableEq

/--
From `_functions.py` (`Function`, spelled `Func` here since Lean reserves
field notation on the name `Function` for function types): a handler's reflected signature.
`defined_on` keeps the defining class's `__name__` (all its display needs).
-/
structure Func where
  name : String
  module : String
  function_args : List FunctionArg
  allows_arbitrary : Bool
  view_class : Option Ann := none
  defined_on : Option String := none
  deriving DecidableEq

/--
From `_functions.py` (`Function.display`): module line, then class/method
lines when the function was defined on a class, else a function line.
-/
def Func.display (f : Func) (indent : String := "  ") : String :=
  String.intercalate ("\n" ++ indent)
    (["module = " ++ f.module] ++
      match f.defined_on with
      | some c => ["class = " ++ c, "method = " ++ f.name]
      | none => ["function = " ++ f.name])

/--
From `_functions.py` (`DispatchFunction`): a `Function` plus the fixed
positional context (name, expected type) supplied before captured values.
-/
structure DispatchFunction where
  function : Func
  positional : List (String × Ann)
  deriving DecidableEq

def DispatchFunction.name (f : DispatchFunction) : String := f.function.name

def DispatchFunction.function_args (f : DispatchFunction) : List FunctionArg :=
  f.function.function_args

def DispatchFunction.allows_arbitrary (f : DispatchFunction) : Bool :=
  f.function.allows_arbitrary

def DispatchFunction.display (f : DispatchFunction) : String := f.function.display

/--
From `_view_patterns.py` (`ViewPattern`), as the pattern-level scenarios see
it: parts, view class identity, and the class-level `request` annotation that
`typing.get_type_hints(view_class).get("request")` would reflect (reflection
is outside the core, so its result is a field here; it is only consulted when
`view_class` is present).
-/
structure ViewPattern where
  parts : List RawPatternPart
  view_class : Option Ann := none
  request_anno : Option Ann := none
  where_ : Where
  deriving DecidableEq

/--
Python `str(...)` of an annotation/type object, as interpolated into error
messages (display only; the embedding fixes one deterministic printer).
-/
def Ann.pyStr : Ann → String
  | .any => "typing.Any"
  | .obj => "<class object>"
  | .typ n => n
  | .union ms => pyStrJoin " | " ms
  | .app base args => base ++ "[" ++ pyStrJoin ", " args ++ "]"
where pyStrJoin (sep : String) : List Ann → String
  | [] => ""
  | [a] => Ann.pyStr a
  | a :: rest => Ann.pyStr a ++ sep ++ pyStrJoin sep rest

/-- Python `repr` of a list of strings, as an f-string interpolates it. -/
def pyStrListRepr (l : List String) : String :=
  "[" ++ String.intercalate ", " (l.map fun s => "'" ++ s ++ "'") ++ "]"

/-- Lexicographic code-point comparison of strings, as Python `<=` compares
them (kernel-computable, unlike the builtin iterator-based `String` order). -/
def strLeB (a b : String) : Bool := go a.data b.data
where go : List Char → List Char → Bool
  | [], _ => true
  | _ :: _, [] => false
  | x :: xs, y :: ys =>
    if x.toNat < y.toNat then true
    else if y.toNat < x.toNat then false
    else go xs ys

theorem strLeB_go_self : ∀ l : List Char, strLeB.go l l = true := by
  intro l
  induction l with
  | nil => rfl
  | cons x xs ih => simp [strLeB.go, ih]

theorem strLeB_self (s : String) : strLeB s s = true := strLeB_go_self s.data

/-- Python `sorted` on strings (ascending lexicographic, stable). -/
def pySortedStrings (l : List String) : List String :=
  l.insertionSort fun a b => strLeB a b = true

instance : DecidableRel (fun (a b : String) => strLeB a b = true) := fun a b =>
  inferInstanceAs (Decidable (strLeB a b = true))

/--
From `_errors.py` (`MismatchedRequiredArgs.Incorrect`): what about a
positional argument is wrong, created through the classmethods below.
-/
structure Incorrect where
  reason : String
  add_auth_message : Bool := false
  deriving DecidableEq

/-- `Incorrect.missing`: a required positional argument is missing. -/
def Incorrect.missing (name : String) : Incorrect :=
  ⟨"Missing required positional argument: " ++ name, false⟩

/-- `Incorrect.misnamed`: a positional argument has the wrong name. -/
def Incorrect.misnamed (index : Nat) (got want : String) : Incorrect :=
  if index = 0 then
    ⟨"The first argument should be named " ++ want ++ ", but got " ++ got, false⟩
  else if index = 1 then
    ⟨"The second argument should be named " ++ want ++ ", but got " ++ got, false⟩
  else
    ⟨"Require positional parameter " ++ toString index ++ " to be named " ++ want ++
      ", but got " ++ got, false⟩

/-- `Incorrect.mistyped`: the annotation on an argument is wrong. -/
def Incorrect.mistyped (name : String) (got : Ann) (want : String)
    (add_auth_message : Bool := false) : Incorrect :=
  ⟨"The '" ++ name ++ "' argument needs to be '" ++ want ++ "' but it's '" ++
    Ann.pyStr got ++ "'", add_auth_message⟩

/-- `Incorrect.no_var_args`: variadic positional arguments are not allowed. -/
def Incorrect.no_var_args (name : String) : Incorrect :=
  ⟨"Please remove the var args '*" ++ name ++
    "' from the function signature and ensure all arguments are explicit", false⟩

/-- `Incorrect.make_keyword_only`: the argument must come after a lone star. -/
def Incorrect.make_keyword_only (name : String) : Incorrect :=
  ⟨"Please ensure the '" ++ name ++
    "' argument comes after a lone '*' so that it is defined as keyword only", false⟩

/--
From `_errors.py`: the `InvalidPattern` subclasses the verified claims touch,
as one tagged type.  Where the source stores a `function_where`/`class_where`
display closure, the embedding stores what determines it (the
`DispatchFunction`, or the already-rendered class display string); the
`expect`/`expanded_note` abstract properties of `InvalidRequestAnnotation`
are the concrete subclass's values, carried as data.
-/
inductive Violation where
  | noPositionalArguments (pattern : RawPattern) (where_ : Where)
  | mustSubclassDjangoGenericView (pattern : RawPattern) (where_ : Where)
  | requiredArgOnViewNotAlwaysRequiredByPattern (pattern_wheres : List Where)
      (function : DispatchFunction) (missing_args : List String)
  | viewDoesNotAcceptCapturedArg (where_ : Where) (missing : List (Where × String))
      (function : DispatchFunction)
  | invalidRequestAnno (where_ : Where) (view_class : Ann) (request_anno : Ann)
      (expected_user_type : Ann) (class_display : String)
      (acceptable_annos : List Ann) (acceptable_containers : List Ann)
      (expect : String) (expanded_note : List String)
  | mismatchedRequiredArgs (function : DispatchFunction) (incorrect : List Incorrect)
  deriving DecidableEq

/-- The Python class name of a violation (`type(error).__name__`); for the
abstract `InvalidRequestAnnotation` case the base class's name stands in. -/
def Violation.kindName : Violation → String
  | .noPositionalArguments .. => "NoPositionalArguments"
  | .mustSubclassDjangoGenericView .. => "MustSubclassDjangoGenericView"
  | .requiredArgOnViewNotAlwaysRequiredByPattern .. =>
      "RequiredArgOnViewNotAlwaysRequiredByPattern"
  | .viewDoesNotAcceptCapturedArg .. => "ViewDoesNotAcceptCapturedArg"
  | .invalidRequestAnno .. => "InvalidRequestAnnotation"
  | .mismatchedRequiredArgs .. => "MismatchedRequiredArgs"

/-- The `error` property of `InvalidRequestAnnotation` in `_errors.py`. -/
def invalidRequestErrorText (request_anno : Ann)
    (acceptable_annos acceptable_containers : List Ann) : String :=
  if acceptable_containers.contains request_anno then
    "The annotation is not specifying a user model"
  else if !(acceptable_annos.contains request_anno) &&
      !(match Ann.getOrigin request_anno with
        | some o => acceptable_containers.contains o
        | none => false) then
    "The annotation is not using a valid type\n      (" ++ Ann.pyStr request_anno ++ ")"
  else
    "The annotation is specifying the wrong user model"

/--
Python `str(error)`: the `__str__` implementations of the violation classes in
`_errors.py`, case by case.  This is the canonical string the aggregator
deduplicates on.
-/
def Violation.render : Violation → String
  | .noPositionalArguments _ w =>
      "[NoPositionalArguments]\n" ++ Where.display w ++
        "\n  :: Please ensure that captured groups in url patterns always have a name"
  | .mustSubclassDjangoGenericView _ w =>
      "[MustSubclassDjangoGenericView]\n" ++ Where.display w "  " false ++
        "\n  :: Views must inherit from django.views.generic.View"
  | .requiredArgOnViewNotAlwaysRequiredByPattern pattern_wheres fn missing_args =>
      let url_patterns := ["  url patterns >>"] ++
        pattern_wheres.enum.flatMap fun iw =>
          ["    " ++ toString iw.1 ++ " >"] ++
            (Where.display iw.2 "      ").splitOn "\n"
      String.intercalate "\n"
        [ "[RequiredArgOnViewNotAlwaysRequiredByPattern]",
          "  " ++ DispatchFunction.display fn,
          "  missing_from_urlpatterns = " ++ pyStrListRepr (pySortedStrings missing_args),
          String.intercalate "\n" url_patterns,
          " :: Found arguments on the view that are not provided by any of the patterns that lead to that view",
          " :: You likely want to use Unpack on the kwargs with a NotRequired on these args",
          " :: Or give them default values if you have provided explicit keywords to the function" ]
  | .viewDoesNotAcceptCapturedArg w missing fn =>
      let missingLines := missing.map fun wn =>
        "  Missing captured arg: " ++ wn.2 ++ "\n" ++ Where.display wn.1 "    "
      String.intercalate "\n"
        [ "[ViewDoesNotAcceptCapturedArg]",
          "  Originating:\n" ++ Where.display w "    ",
          "  " ++ DispatchFunction.display fn,
          String.intercalate "\n" missingLines,
          " :: There are args in the pattern that the view is not aware of",
          " :: You likely want to add those extra arguments to the view!" ]
  | .invalidRequestAnno w _ request_anno _ class_display annos containers expect note =>
      String.intercalate "\n"
        ([ "[InvalidRequestAnnotation]",
           "  Originating:\n" ++ Where.display w "    ",
           "  " ++ class_display,
           "  error = " ++ invalidRequestErrorText request_anno annos containers,
           "  expect = " ++ expect ] ++ note)
  | .mismatchedRequiredArgs fn incorrect =>
      let problems := String.intercalate "\n    * " (incorrect.map fun inc => inc.reason)
      let add_auth := incorrect.any fun inc => inc.add_auth_message
      let msg :=
        "[MismatchedRequiredArgs]\n  " ++ DispatchFunction.display fn ++
          "\n  Found some problems with the arguments to some functions:\n    * " ++ problems ++
          "\n  :: We want to create consistency around the names and types of the positional" ++
          "\n  :: arguments to specific functions on the Django views"
      if add_auth then
        msg ++
          "\n  :: For Django class views, instead annotate request on the class and refer to `self.request.user`"
      else msg

/-- Membership test of a key in an insertion-ordered dictionary
(`key in dict` in Python). -/
def dictHas (d : List (String × β)) (k : String) : Bool :=
  d.any fun p => p.1 == k

/-- Lookup in an insertion-ordered dictionary (`dict[key]`, as an option). -/
def dictGet (d : List (String × β)) (k : String) : Option β :=
  (d.find? fun p => p.1 == k).map fun p => p.2

/--
From `_errors.py` (`ErrorContainer`): the deduplicating aggregator over an
arbitrary violation type `V` (the source holds `InvalidPattern` instances and
calls `str` on them; the embedding passes the rendering explicitly).
`_by_error_str` maps each canonical string to its occurrence count and
`_error_by_str` to the first violation that rendered to it, both in insertion
order.
-/
structure ErrorContainer (V : Type) where
  by_error_str : List (String × Nat) := []
  error_by_str : List (String × V) := []
  deriving DecidableEq

/-- A fresh, empty `ErrorContainer`. -/
def ErrorContainer.empty : ErrorContainer V := ⟨[], []⟩

/--
From `_errors.py` (`ErrorContainer.add`): compute the canonical string; store
this instance if the string is unseen, initialise the count to `0` if unseen,
then always increment the string's count.
-/
def ErrorContainer.add (render : V → String) (c : ErrorContainer V) (v : V) :
    ErrorContainer V :=
  let error_str := render v
  let error_by_str :=
    if dictHas c.error_by_str error_str then c.error_by_str
    else c.error_by_str ++ [(error_str, v)]
  let by0 :=
    if dictHas c.by_error_str error_str then c.by_error_str
    else c.by_error_str ++ [(error_str, 0)]
  let by_error_str := by0.map fun p => if p.1 = error_str then (p.1, p.2 + 1) else p
  ⟨by_error_str, error_by_str⟩

/--
From `_errors.py` (`ErrorContainer.__iter__` / `.errors`): for each canonical
string in `_by_error_str` (insertion order), yield the stored first instance.
-/
def ErrorContainer.iter (c : ErrorContainer V) : List V :=
  c.by_error_str.filterMap fun p => dictGet c.error_by_str p.1

/-- Adding a whole sequence of violations to a fresh container, in order. -/
def ErrorContainer.addAll (render : V → String) (vs : List V) : ErrorContainer V :=
  vs.foldl (ErrorContainer.add render) ErrorContainer.empty

/-- `any(errors)` in the source: the container's iterator yields something
(violation instances are always truthy). -/
def ErrorContainer.anyErrors (c : ErrorContainer V) : Bool :=
  !c.iter.isEmpty

/--
The sort key of `ErrorContainer.by_most_repeated`: the source's
`lambda pair: (-pair[1], pair[0].__class__.__name__)` over the items of
`_by_error_str`.  `pair[0]` is the canonical *string*, so the second component
is the name of its Python class: the constant `"str"`.
-/
def byMostRepeatedKey (p : String × Nat) : Int × String :=
  (-(p.2 : Int), "str")

/-- Non-strict lexicographic order on the sort keys, as Python compares
key tuples (string components compared by `strLeB`). -/
def keyTupleLe (a b : Int × String) : Prop :=
  a.1 < b.1 ∨ (a.1 = b.1 ∧ strLeB a.2 b.2 = true)

instance : DecidableRel keyTupleLe := fun a b =>
  inferInstanceAs (Decidable (a.1 < b.1 ∨ (a.1 = b.1 ∧ strLeB a.2 b.2 = true)))

/-- The comparison `by_most_repeated` sorts the dictionary items with. -/
def byMostRepeatedLe (p q : String × Nat) : Prop :=
  keyTupleLe (byMostRepeatedKey p) (byMostRepeatedKey q)

instance : DecidableRel byMostRepeatedLe := fun p q =>
  inferInstanceAs (Decidable (keyTupleLe (byMostRepeatedKey p) (byMostRepeatedKey q)))

/--
From `_errors.py` (`ErrorContainer.by_most_repeated`): the canonical strings
of `sorted(self._by_error_str.items(), key=...)`.  Python's `sorted` is a
stable sort, modelled by `List.insertionSort` with the non-strict key order.
-/
def ErrorContainer.by_most_repeated (c : ErrorContainer V) : List String :=
  (c.by_error_str.insertionSort byMostRepeatedLe).map fun p => p.1

/-- Python `set.add`: insert a name unless already present (the embedding
keeps first-insertion order; the sets are only read through membership and
sorted rendering). -/
def setAdd (s : List String) (x : String) : List String :=
  if s.contains x then s else s ++ [x]

/--
From `_scenarios.py` (`CheckPositionalArgsAreCorrectFunctionScenario`): the
configuration flags, and the abstract `is_mistyped` hook as a function of
(function, want annotation, got annotation, auth user model, name, position).
-/
structure CheckPositionalArgsScenario where
  disallow_var_args : Bool := true
  enforce_keyword_args : Bool := true
  exit_early : Bool := false
  is_mistyped : DispatchFunction → Ann → Ann → Ann → String → Nat → Option Incorrect

/--
The loop of `CheckPositionalArgsAreCorrectFunctionScenario.run`, walking the
function args (skipping `self`) in lockstep with the remaining positional
context; `position` counts the non-self args already seen.  A `break` in the
source returns the collected entries with no further recursion.
-/
def positionalWalk (sc : CheckPositionalArgsScenario) (auth_user_model : Ann)
    (function : DispatchFunction) :
    List (String × Ann) → Nat → List FunctionArg → List Incorrect
  | _, _, [] => []
  | positional, position, arg :: rest =>
    if arg.is_self then positionalWalk sc auth_user_model function positional position rest
    else
      match positional with
      | (name, anno) :: posRest =>
        if arg.is_variable_positional then
          [Incorrect.missing name]
        else if arg.keyword_only then
          Incorrect.missing name ::
            positionalWalk sc auth_user_model function posRest (position + 1) rest
        else if arg.name != name then
          Incorrect.misnamed position arg.name name ::
            positionalWalk sc auth_user_model function posRest (position + 1) rest
        else if !(arg.anno == Ann.any || arg.anno == anno) then
          match sc.is_mistyped function anno arg.anno auth_user_model name position with
          | some inc =>
              inc :: positionalWalk sc auth_user_model function posRest (position + 1) rest
          | none => positionalWalk sc auth_user_model function posRest (position + 1) rest
        else positionalWalk sc auth_user_model function posRest (position + 1) rest
      | [] =>
        if arg.keyword_only then []
        else if arg.is_variable_positional && sc.disallow_var_args then
          Incorrect.no_var_args arg.name ::
            positionalWalk sc auth_user_model function [] (position + 1) rest
        else if sc.enforce_keyword_args then
          Incorrect.make_keyword_only arg.name ::
            positionalWalk sc auth_user_model function [] (position + 1) rest
        else positionalWalk sc auth_user_model function [] (position + 1) rest

/--
`CheckPositionalArgsAreCorrectFunctionScenario.run`: walk the args, and batch
every collected entry into one `MismatchedRequiredArgs` violation (none when
nothing was collected).  The returned list is what the scenario adds to the
aggregator.
-/
def CheckPositionalArgsScenario.run (sc : CheckPositionalArgsScenario)
    (auth_user_model : Ann) (function : DispatchFunction) : List Violation :=
  let incorrect :=
    positionalWalk sc auth_user_model function function.positional 0
      function.function_args
  if incorrect.isEmpty then []
  else [.mismatchedRequiredArgs function incorrect]

/--
The loop of `CheckRequiredArgsMatchUrlPatternFunctionScenario.run`: skip
`self`, consume one positional-context slot per remaining arg, then collect
each required arg whose name no part captures or defaults.
-/
def requiredArgsCollect (parts : List RawPatternPart) :
    List (String × Ann) → List String → List FunctionArg → List String
  | _, missing, [] => missing
  | positional, missing, arg :: rest =>
    if arg.is_self then requiredArgsCollect parts positional missing rest
    else
      match positional with
      | _ :: posRest => requiredArgsCollect parts posRest missing rest
      | [] =>
        if arg.required &&
            !(parts.any fun part => part.capturedNames.contains arg.name) &&
            !(parts.any fun part => part.default_arg_names.contains arg.name) then
          requiredArgsCollect parts [] (setAdd missing arg.name) rest
        else requiredArgsCollect parts [] missing rest

/--
`CheckRequiredArgsMatchUrlPatternFunctionScenario.run`: one
`RequiredArgOnViewNotAlwaysRequiredByPattern` violation carrying every part's
`Where` and the missing names, when any name was collected.
-/
def checkRequiredArgsRun (auth_user_model : Ann) (pattern : ViewPattern)
    (function : DispatchFunction) : List Violation :=
  let missing :=
    requiredArgsCollect pattern.parts function.positional [] function.function_args
  if missing.isEmpty then []
  else
    [.requiredArgOnViewNotAlwaysRequiredByPattern
      (pattern.parts.map fun part => part.where_) function missing]

/--
The first loop of `CheckAcceptsArgsFunctionScenario.run`: the names the
function accepts for captured args (skipping `self`, the args consumed by the
positional context, and variadic args).
-/
def availableArgNames :
    List (String × Ann) → List String → List FunctionArg → List String
  | _, available, [] => available
  | positional, available, arg :: rest =>
    if arg.is_self then availableArgNames positional available rest
    else
      match positional with
      | _ :: posRest => availableArgNames posRest available rest
      | [] =>
        if arg.is_variable_keywords || arg.is_variable_positional then
          availableArgNames [] available rest
        else availableArgNames [] (setAdd available arg.name) rest

/--
`CheckAcceptsArgsFunctionScenario.run`: a no-op for a function that allows
arbitrary keyword args; otherwise every captured or default-bound name of
every part that is not an available name is collected with that part's
`Where`, batched into one `ViewDoesNotAcceptCapturedArg` violation.
-/
def checkAcceptsArgsRun (auth_user_model : Ann) (pattern : ViewPattern)
    (function : DispatchFunction) : List Violation :=
  if function.allows_arbitrary then []
  else
    let available := availableArgNames function.positional [] function.function_args
    let missing := pattern.parts.flatMap fun part =>
      ((part.capturedNames ++ part.default_arg_names).filter fun name =>
          !available.contains name).map fun name => (part.where_, name)
    if missing.isEmpty then []
    else [.viewDoesNotAcceptCapturedArg pattern.where_ missing function]

/--
From `_scenarios.py` (`CheckViewClassRequestAnnotationScenario`): the
configured whitelist (`acceptable_annotations`), the user-parameterized
container whitelist (`acceptable_request_annotation_containers`), and the
concrete error subclass's `expect`/`expanded_note` texts.
-/
structure RequestAnnoScenario where
  acceptable_annos : List Ann
  acceptable_containers : List Ann
  error_expect : String := ""
  error_note : List String := []
  exit_early : Bool := false

/--
`CheckViewClassRequestAnnotationScenario.annotation_is_valid`: valid when the
annotation is a configured whitelist entry, or a generic whose origin is a
configured container and whose first type argument equals the auth user model.
-/
def RequestAnnoScenario.annoIsValid (sc : RequestAnnoScenario)
    (auth_user_model : Ann) (anno : Ann) : Bool :=
  if sc.acceptable_annos.contains anno then true
  else
    match Ann.getOrigin anno, Ann.getArgs anno with
    | some origin, a :: _ => sc.acceptable_containers.contains origin && a == auth_user_model
    | _, _ => false

/--
`CheckViewClassRequestAnnotationScenario.run`: nothing to check without a view
class or without a `request` annotation on it; otherwise emit the configured
`InvalidRequestAnnotation` subclass when the annotation is invalid.
(`pattern.class_display` stands for the `pattern.display_view_class` closure
the source passes as `class_where`.)
-/
def RequestAnnoScenario.run (sc : RequestAnnoScenario) (auth_user_model : Ann)
    (pattern : ViewPattern) (class_display : String) : List Violation :=
  match pattern.view_class with
  | none => []
  | some vc =>
    match pattern.request_anno with
    | none => []
    | some request_anno =>
      if sc.annoIsValid auth_user_model request_anno then []
      else
        [.invalidRequestAnno pattern.where_ vc request_anno auth_user_model
          class_display sc.acceptable_annos sc.acceptable_containers
          sc.error_expect sc.error_note]

/-- Adding a sequence of violations to an existing container, in order. -/
def ErrorContainer.addSeq (render : V → String) (c : ErrorContainer V)
    (vs : List V) : ErrorContainer V :=
  vs.foldl (ErrorContainer.add render) c

/--
The outcome of one `pattern_maker(raw_pattern=...)` call in
`TestRunner.from_raw_patterns`: a built pattern, a raised `InvalidPattern`
(caught and aggregated), or any other raised exception (propagates).
-/
inductive MakerResult (P V E : Type) where
  | ok (p : P)
  | invalid (v : V)
  | failure (e : E)
  deriving DecidableEq

/--
What `TestRunner.from_raw_patterns` does: return the runner's pattern list,
raise `FoundInvalidPatterns` with the aggregator, or let another exception
propagate.
-/
inductive BuildOutcome (P V E : Type) where
  | runner (patterns : List P)
  | foundInvalid (errors : ErrorContainer V)
  | exception (e : E)
  deriving DecidableEq

/--
The loop of `TestRunner.from_raw_patterns` over the raw patterns, carrying the
fresh aggregator and the patterns built so far; after the loop the aggregator
is raised as a batch failure exactly when non-empty.
-/
def fromRawAux (render : V → String) (excluder : Option (Raw → Bool))
    (maker : Raw → MakerResult P V E) (errors : ErrorContainer V)
    (patterns : List P) : List Raw → BuildOutcome P V E
  | [] => if errors.anyErrors then .foundInvalid errors else .runner patterns
  | raw :: rest =>
    if (match excluder with | some f => f raw | none => false) then
      fromRawAux render excluder maker errors patterns rest
    else
      match maker raw with
      | .failure e => .exception e
      | .invalid v => fromRawAux render excluder maker (errors.add render v) patterns rest
      | .ok p => fromRawAux render excluder maker errors (patterns ++ [p]) rest

/-- From `_test_runner.py` (`TestRunner.from_raw_patterns`). -/
def fromRawPatterns (render : V → String) (excluder : Option (Raw → Bool))
    (maker : Raw → MakerResult P V E) (raws : List Raw) : BuildOutcome P V E :=
  fromRawAux render excluder maker ErrorContainer.empty [] raws

/--
The `Pattern` capability interface from `_view_patterns.py`, as
`TestRunner.run_scenarios` consumes it: exclusion predicates and the finite
`relevant_functions` sequence.
-/
structure RunnerPattern where
  exclude : Ann → Bool
  exclude_function : Ann → DispatchFunction → Bool
  relevant_functions : List DispatchFunction

/--
A pattern-level scenario as the runner sees it: its `exit_early` flag and its
`run`, whose only effect is the violations it adds for a pattern (given the
auth user model).
-/
structure PatternScenario (V : Type) where
  exit_early : Bool
  run : Ann → RunnerPattern → List V

/-- A function-level scenario as the runner sees it. -/
structure FunctionScenario (V : Type) where
  exit_early : Bool
  run : Ann → RunnerPattern → DispatchFunction → List V

/--
One `scenario.run(...)` invocation of `TestRunner.run_scenarios`, named by the
scenario's index, the pattern's index, and (for function scenarios) the
function's index within `relevant_functions()`.
-/
inductive RunEvent where
  | pat (scenario : Nat) (pattern : Nat)
  | fn (scenario : Nat) (pattern : Nat) (function : Nat)
  deriving DecidableEq

/-- One pattern scenario's full sweep: fold its run over every non-excluded
pattern, in order, into the shared aggregator. -/
def patternSweep (render : V → String) (auth : Ann)
    (patterns : List (Nat × RunnerPattern)) (s : PatternScenario V)
    (errors : ErrorContainer V) : ErrorContainer V :=
  patterns.foldl
    (fun acc ip =>
      if ip.2.exclude auth then acc else acc.addSeq render (s.run auth ip.2))
    errors

/-- The invocations one pattern scenario's full sweep performs. -/
def patternSweepEvents (auth : Ann) (patterns : List (Nat × RunnerPattern))
    (si : Nat) : List RunEvent :=
  (patterns.filter fun ip => !(ip.2.exclude auth)).map fun ip => .pat si ip.1

/-- One function scenario's full sweep: every non-excluded pattern's
non-excluded relevant functions, in order. -/
def functionSweep (render : V → String) (auth : Ann)
    (patterns : List (Nat × RunnerPattern)) (s : FunctionScenario V)
    (errors : ErrorContainer V) : ErrorContainer V :=
  patterns.foldl
    (fun acc ip =>
      if ip.2.exclude auth then acc
      else
        ip.2.relevant_functions.foldl
          (fun acc2 f =>
            if ip.2.exclude_function auth f then acc2
            else acc2.addSeq render (s.run auth ip.2 f))
          acc)
    errors

/-- The invocations one function scenario's full sweep performs. -/
def functionSweepEvents (auth : Ann) (patterns : List (Nat × RunnerPattern))
    (si : Nat) : List RunEvent :=
  (patterns.filter fun ip => !(ip.2.exclude auth)).flatMap fun ip =>
    (ip.2.relevant_functions.enum.filter fun jf =>
        !(ip.2.exclude_function auth jf.2)).map fun jf => .fn si ip.1 jf.1

/--
The first loop of `TestRunner.run_scenarios`: each pattern scenario sweeps
every non-excluded pattern; after its full sweep, when it is marked
`exit_early` and the aggregator is non-empty, `FoundInvalidPatterns` is raised
(signalled by the option) and nothing further runs.  Returns the invocation
trace, the aggregator, and the raise signal.
-/
def runPatternScenariosAux (render : V → String) (auth : Ann)
    (patterns : List (Nat × RunnerPattern)) (errors : ErrorContainer V) :
    List (Nat × PatternScenario V) →
      List RunEvent × ErrorContainer V × Option (ErrorContainer V)
  | [] => ([], errors, none)
  | (si, s) :: rest =>
    let errors2 := patternSweep render auth patterns s errors
    let events := patternSweepEvents auth patterns si
    if s.exit_early && errors2.anyErrors then (events, errors2, some errors2)
    else
      let r := runPatternScenariosAux render auth patterns errors2 rest
      (events ++ r.1, r.2.1, r.2.2)

/-- The second loop of `TestRunner.run_scenarios`, over function scenarios. -/
def runFunctionScenariosAux (render : V → String) (auth : Ann)
    (patterns : List (Nat × RunnerPattern)) (errors : ErrorContainer V) :
    List (Nat × FunctionScenario V) →
      List RunEvent × ErrorContainer V × Option (ErrorContainer V)
  | [] => ([], errors, none)
  | (si, s) :: rest =>
    let errors2 := functionSweep render auth patterns s errors
    let events := functionSweepEvents auth patterns si
    if s.exit_early && errors2.anyErrors then (events, errors2, some errors2)
    else
      let r := runFunctionScenariosAux render auth patterns errors2 rest
      (events ++ r.1, r.2.1, r.2.2)

/-- The result of `TestRunner.run_scenarios`: the invocation trace and, when
`FoundInvalidPatterns` was raised, the aggregator it carries. -/
structure RunOutcome (V : Type) where
  trace : List RunEvent
  raised : Option (ErrorContainer V)
  deriving DecidableEq

/--
From `_test_runner.py` (`TestRunner.run_scenarios`): pattern scenarios first,
then function scenarios, each with the per-sweep early-exit rule; after all
scenarios a non-empty aggregator is raised as the batch failure.
-/
def runScenarios (render : V → String) (auth : Ann)
    (patterns : List RunnerPattern) (pattern_scenarios : List (PatternScenario V))
    (function_scenarios : List (FunctionScenario V)) : RunOutcome V :=
  let ps := patterns.enum
  let r1 := runPatternScenariosAux render auth ps ErrorContainer.empty
    pattern_scenarios.enum
  match r1.2.2 with
  | some ec => ⟨r1.1, some ec⟩
  | none =>
    let r2 := runFunctionScenariosAux render auth ps r1.2.1 function_scenarios.enum
    match r2.2.2 with
    | some ec => ⟨r1.1 ++ r2.1, some ec⟩
    | none => ⟨r1.1 ++ r2.1, if r2.2.1.anyErrors then some r2.2.1 else none⟩

/-- All the full sweeps `run_scenarios` is asked to perform, in order: one
event list per pattern scenario, then one per function scenario. -/
def allSweepEvents (auth : Ann) (patterns : List RunnerPattern)
    (pattern_scenarios : List (PatternScenario V))
    (function_scenarios : List (FunctionScenario V)) : List (List RunEvent) :=
  (pattern_scenarios.enum.map fun is => patternSweepEvents auth patterns.enum is.1) ++
    (function_scenarios.enum.map fun is => functionSweepEvents auth patterns.enum is.1)

/-- The `exit_early` flags of all scenarios, in the order they would run. -/
def allExitEarlyFlags (pattern_scenarios : List (PatternScenario V))
    (function_scenarios : List (FunctionScenario V)) : List Bool :=
  (pattern_scenarios.map fun s => s.exit_early) ++
    (function_scenarios.map fun s => s.exit_early)

/-- Spec-side reference: the distinct elements of a list in first-seen order,
with `seen` the elements already emitted (used to state the deduplication
properties of the aggregator; not a translation of source code). -/
def firstSeenAux (seen : List String) : List String → List String
  | [] => []
  | s :: rest =>
    if s ∈ seen then firstSeenAux seen rest
    else s :: firstSeenAux (s :: seen) rest

/-- Spec-side reference: the distinct elements of a list, first occurrence
kept, in first-seen order. -/
def firstSeen (l : List String) : List String := firstSeenAux [] l

theorem firstSeenAux_cons (seen : List String) (t : String) (rest : List String) :
    firstSeenAux seen (t :: rest) =
      if t ∈ seen then firstSeenAux seen rest
      else t :: firstSeenAux (t :: seen) rest := rfl

theorem firstSeenAux_concat (s : String) :
    ∀ (l seen : List String),
      firstSeenAux seen (l ++ [s]) =
        firstSeenAux seen l ++ (if s ∈ seen ∨ s ∈ l then [] else [s]) := by
  intro l
  induction l with
  | nil =>
    intro seen
    by_cases h : s ∈ seen <;> simp [firstSeenAux, h]
  | cons t rest ih =>
    intro seen
    rw [List.cons_append, firstSeenAux_cons, firstSeenAux_cons]
    by_cases ht : t ∈ seen
    · rw [if_pos ht, if_pos ht, ih seen]
      have hiff : (s ∈ seen ∨ s ∈ t :: rest) ↔ (s ∈ seen ∨ s ∈ rest) := by
        simp only [List.mem_cons]
        constructor
        · rintro (h | rfl | h)
          · exact Or.inl h
          · exact Or.inl ht
          · exact Or.inr h
        · rintro (h | h)
          · exact Or.inl h
          · exact Or.inr (Or.inr h)
      rw [if_congr hiff rfl rfl]
    · rw [if_neg ht, if_neg ht, ih (t :: seen)]
      have hiff : (s ∈ t :: seen ∨ s ∈ rest) ↔ (s ∈ seen ∨ s ∈ t :: rest) := by
        simp only [List.mem_cons]
        tauto
      rw [if_congr hiff rfl rfl, List.cons_append]

theorem firstSeen_concat (s : String) (l : List String) :
    firstSeen (l ++ [s]) = firstSeen l ++ (if s ∈ l then [] else [s]) := by
  have h := firstSeenAux_concat s l []
  simpa [firstSeen] using h

theorem mem_firstSeenAux {x : String} :
    ∀ (l seen : List String), x ∈ firstSeenAux seen l ↔ x ∈ l ∧ x ∉ seen := by
  intro l
  induction l with
  | nil => intro seen; simp [firstSeenAux]
  | cons t rest ih =>
    intro seen
    rw [firstSeenAux_cons]
    by_cases ht : t ∈ seen
    · rw [if_pos ht, ih seen]
      constructor
      · rintro ⟨h1, h2⟩
        exact ⟨List.mem_cons_of_mem _ h1, h2⟩
      · rintro ⟨hx1, hx2⟩
        rcases List.mem_cons.mp hx1 with rfl | h1
        · exact absurd ht hx2
        · exact ⟨h1, hx2⟩
    · rw [if_neg ht]
      constructor
      · intro hx
        rcases List.mem_cons.mp hx with rfl | hx2
        · exact ⟨List.mem_cons_self _ _, ht⟩
        · obtain ⟨h1, h2⟩ := (ih (t :: seen)).mp hx2
          exact ⟨List.mem_cons_of_mem _ h1,
            fun hmem => h2 (List.mem_cons_of_mem _ hmem)⟩
      · rintro ⟨hx1, hx2⟩
        rcases List.mem_cons.mp hx1 with rfl | h1
        · exact List.mem_cons_self _ _
        · by_cases hxt : x = t
          · exact hxt ▸ List.mem_cons_self _ _
          · refine List.mem_cons_of_mem _ ((ih (t :: seen)).mpr ⟨h1, ?_⟩)
            intro hmem
            rcases List.mem_cons.mp hmem with h | h
            · exact hxt h
            · exact hx2 h

theorem mem_firstSeen {x : String} (l : List String) : x ∈ firstSeen l ↔ x ∈ l := by
  simp [firstSeen, mem_firstSeenAux]

theorem nodup_firstSeenAux : ∀ (l seen : List String), (firstSeenAux seen l).Nodup := by
  intro l
  induction l with
  | nil => intro seen; simp [firstSeenAux]
  | cons t rest ih =>
    intro seen
    rw [firstSeenAux_cons]
    by_cases ht : t ∈ seen
    · rw [if_pos ht]; exact ih seen
    · rw [if_neg ht]
      refine List.nodup_cons.mpr ⟨fun hmem => ?_, ih (t :: seen)⟩
      exact ((mem_firstSeenAux rest (t :: seen)).mp hmem).2 (List.mem_cons_self _ _)

theorem nodup_firstSeen (l : List String) : (firstSeen l).Nodup :=
  nodup_firstSeenAux l []

theorem length_firstSeen (l : List String) :
    (firstSeen l).length = l.toFinset.card := by
  have h1 : (firstSeen l).toFinset = l.toFinset := by
    ext x
    simp [List.mem_toFinset, mem_firstSeen]
  calc (firstSeen l).length = (firstSeen l).toFinset.card :=
        (List.toFinset_card_of_nodup (nodup_firstSeen l)).symm
    _ = l.toFinset.card := by rw [h1]

theorem dictGet_nil (t : String) : dictGet ([] : List (String × β)) t = none := rfl

theorem dictGet_cons (x : String × β) (d : List (String × β)) (t : String) :
    dictGet (x :: d) t = if x.1 = t then some x.2 else dictGet d t := by
  by_cases h : x.1 = t
  · have hb : (x.1 == t) = true := by simp [h]
    simp [dictGet, List.find?, hb, h]
  · have hb : (x.1 == t) = false := by simp [h]
    simp [dictGet, List.find?, hb, h]

theorem dictHas_iff_mem (d : List (String × β)) (k : String) :
    dictHas d k = true ↔ k ∈ d.map fun p => p.1 := by
  induction d with
  | nil => simp [dictHas]
  | cons p rest ih =>
    simp only [dictHas] at ih ⊢
    simp only [List.any_cons, List.map_cons, List.mem_cons, Bool.or_eq_true, beq_iff_eq]
    constructor
    · rintro (h | h)
      · exact Or.inl h.symm
      · exact Or.inr (ih.mp h)
    · rintro (h | h)
      · exact Or.inl h.symm
      · exact Or.inr (ih.mpr h)

theorem dictGet_concatKey (d : List (String × β)) (k t : String) (b : β) :
    dictGet (d ++ [(k, b)]) t =
      match dictGet d t with
      | some x => some x
      | none => if t = k then some b else none := by
  induction d with
  | nil =>
    by_cases h : t = k
    · simp [dictGet_nil, dictGet_cons, h]
    · have h2 : ¬ k = t := fun hh => h hh.symm
      simp [dictGet_nil, dictGet_cons, h, h2]
  | cons p rest ih =>
    rw [List.cons_append, dictGet_cons, dictGet_cons]
    by_cases h : p.1 = t
    · simp [h]
    · simp [h, ih]

theorem keys_update (d : List (String × Nat)) (s : String) :
    ((d.map fun p => if p.1 = s then (p.1, p.2 + 1) else p).map fun p => p.1) =
      d.map fun p => p.1 := by
  rw [List.map_map]
  refine List.map_congr_left fun p _ => ?_
  simp only [Function.comp_apply]
  split <;> rfl

theorem dictGet_update (d : List (String × Nat)) (s t : String) :
    dictGet (d.map fun p => if p.1 = s then (p.1, p.2 + 1) else p) t =
      if t = s then (dictGet d s).map (fun n => n + 1) else dictGet d t := by
  induction d with
  | nil => by_cases h : t = s <;> simp [dictGet_nil, h]
  | cons p rest ih =>
    have h1 : ((if p.1 = s then (p.1, p.2 + 1) else p) : String × Nat).1 = p.1 := by
      split <;> rfl
    have h2 : ((if p.1 = s then (p.1, p.2 + 1) else p) : String × Nat).2 =
        if p.1 = s then p.2 + 1 else p.2 := by
      split <;> rfl
    by_cases hp : p.1 = s
    · by_cases ht : p.1 = t
      · have hts : t = s := by rw [← ht, hp]
        subst hts
        simp [List.map_cons, dictGet_cons, h1, h2, hp, ht]
      · have hts : ¬ t = s := fun h => ht (by rw [h, ← hp])
        have hst : ¬ s = t := fun h => hts h.symm
        simp [List.map_cons, dictGet_cons, h1, h2, hp, ht, hts, hst, ih]
    · by_cases ht : p.1 = t
      · have hts : ¬ t = s := fun h => hp (by rw [ht, h])
        simp [List.map_cons, dictGet_cons, h1, h2, hp, ht, hts]
      · simp [List.map_cons, dictGet_cons, h1, h2, hp, ht, ih]

theorem find?_concat (p : α → Bool) (x : α) :
    ∀ l : List α, (l ++ [x]).find? p =
      match l.find? p with
      | some a => some a
      | none => if p x then some x else none := by
  intro l
  induction l with
  | nil => by_cases h : p x <;> simp [List.find?, h]
  | cons a rest ih =>
    by_cases h : p a
    · simp [List.find?_cons_of_pos, h]
    · simp only [List.cons_append, List.find?_cons_of_neg _ h, ih]

theorem addAll_concat (render : V → String) (vs : List V) (v : V) :
    ErrorContainer.addAll render (vs ++ [v]) =
      (ErrorContainer.addAll render vs).add render v := by
  simp [ErrorContainer.addAll, List.foldl_append]

theorem add_by_error_str (render : V → String) (c : ErrorContainer V) (v : V) :
    (c.add render v).by_error_str =
      (if dictHas c.by_error_str (render v) then c.by_error_str
       else c.by_error_str ++ [(render v, 0)]).map
        fun p => if p.1 = render v then (p.1, p.2 + 1) else p := rfl

theorem add_error_by_str (render : V → String) (c : ErrorContainer V) (v : V) :
    (c.add render v).error_by_str =
      if dictHas c.error_by_str (render v) then c.error_by_str
      else c.error_by_str ++ [(render v, v)] := rfl

/--
The state the aggregator reaches after adding a sequence `vs`: both
dictionaries are keyed by the distinct canonical strings in first-seen order,
the count dictionary stores each string's number of occurrences, and the
instance dictionary stores the first-added violation rendering to each string.
-/
theorem addAll_state (render : V → String) (vs : List V) :
    ((ErrorContainer.addAll render vs).by_error_str.map fun p => p.1) =
        firstSeen (vs.map render) ∧
    ((ErrorContainer.addAll render vs).error_by_str.map fun p => p.1) =
        firstSeen (vs.map render) ∧
    (∀ s, dictGet (ErrorContainer.addAll render vs).by_error_str s =
        if s ∈ vs.map render then some ((vs.map render).count s) else none) ∧
    (∀ s, dictGet (ErrorContainer.addAll render vs).error_by_str s =
        vs.find? fun x => render x == s) := by
  induction vs using List.reverseRecOn with
  | nil =>
    refine ⟨rfl, rfl, fun s => ?_, fun s => ?_⟩ <;>
      simp [ErrorContainer.addAll, ErrorContainer.empty, dictGet_nil, List.find?,
        firstSeen, firstSeenAux]
  | append_singleton vs v ih =>
    obtain ⟨ih1, ih2, ih3, ih4⟩ := ih
    rw [addAll_concat]
    set c := ErrorContainer.addAll render vs with hc
    have hhas1 : dictHas c.by_error_str (render v) = true ↔
        render v ∈ vs.map render := by
      rw [dictHas_iff_mem, ih1, mem_firstSeen]
    have hhas2 : dictHas c.error_by_str (render v) = true ↔
        render v ∈ vs.map render := by
      rw [dictHas_iff_mem, ih2, mem_firstSeen]
    simp only [List.map_append, List.map_cons, List.map_nil]
    by_cases hmem : render v ∈ vs.map render
    · have e1 : dictHas c.by_error_str (render v) = true := hhas1.mpr hmem
      have e2 : dictHas c.error_by_str (render v) = true := hhas2.mpr hmem
      rw [add_by_error_str, add_error_by_str, if_pos e1, if_pos e2]
      have hfsk : firstSeen (vs.map render ++ [render v]) =
          firstSeen (vs.map render) := by
        rw [firstSeen_concat, if_pos hmem, List.append_nil]
      refine ⟨?_, ?_, fun s => ?_, fun s => ?_⟩
      · rw [keys_update, hfsk]
        exact ih1
      · rw [hfsk]
        exact ih2
      · rw [dictGet_update]
        by_cases hs : s = render v
        · subst hs
          rw [if_pos rfl, ih3 (render v), if_pos hmem]
          have hmem2 : render v ∈ vs.map render ++ [render v] :=
            List.mem_append_left _ hmem
          rw [if_pos hmem2]
          simp [List.count_append]
        · rw [if_neg hs, ih3 s]
          have hcnt : (vs.map render ++ [render v]).count s =
              (vs.map render).count s := by
            simp [List.count_append, List.count_cons, hs]
          have hmemiff : s ∈ vs.map render ++ [render v] ↔ s ∈ vs.map render := by
            simp [List.mem_append, hs]
          by_cases hin : s ∈ vs.map render
          · rw [if_pos hin, if_pos (hmemiff.mpr hin), hcnt]
          · rw [if_neg hin, if_neg (fun h => hin (hmemiff.mp h))]
      · rw [ih4 s, find?_concat]
        cases hfind : vs.find? fun x => render x == s with
        | some a => simp
        | none =>
          have hne : (render v == s) = false := by
            by_cases hrv : render v = s
            · exfalso
              obtain ⟨x, hx, hxe⟩ := List.exists_of_mem_map hmem
              have hno := List.find?_eq_none.mp hfind x hx
              rw [hxe, hrv] at hno
              simp at hno
            · simp [hrv]
          simp [hne]
    · have e1 : ¬ dictHas c.by_error_str (render v) = true := fun h => hmem (hhas1.mp h)
      have e2 : ¬ dictHas c.error_by_str (render v) = true := fun h => hmem (hhas2.mp h)
      rw [add_by_error_str, add_error_by_str, if_neg e1, if_neg e2]
      have hfsk : firstSeen (vs.map render ++ [render v]) =
          firstSeen (vs.map render) ++ [render v] := by
        rw [firstSeen_concat, if_neg hmem]
      refine ⟨?_, ?_, fun s => ?_, fun s => ?_⟩
      · rw [keys_update, List.map_append, ih1, hfsk]
        rfl
      · rw [List.map_append, ih2, hfsk]
        rfl
      · rw [dictGet_update]
        by_cases hs : s = render v
        · subst hs
          rw [if_pos rfl, dictGet_concatKey, ih3 (render v), if_neg hmem]
          have hcount : (vs.map render).count (render v) = 0 :=
            List.count_eq_zero.mpr hmem
          have hmem2 : render v ∈ vs.map render ++ [render v] := by simp
          rw [if_pos hmem2]
          simp [List.count_append, hcount]
        · rw [if_neg hs, dictGet_concatKey, ih3 s]
          have hcnt : (vs.map render ++ [render v]).count s =
              (vs.map render).count s := by
            simp [List.count_append, List.count_cons, hs]
          have hmemiff : s ∈ vs.map render ++ [render v] ↔ s ∈ vs.map render := by
            simp [List.mem_append, hs]
          by_cases hin : s ∈ vs.map render
          · rw [if_pos hin, if_pos (hmemiff.mpr hin), hcnt]
          · rw [if_neg hin, if_neg (fun h => hin (hmemiff.mp h))]
            simp [hs]
      · rw [dictGet_concatKey, ih4 s, find?_concat]
        cases hfind : vs.find? fun x => render x == s with
        | some a => simp
        | none =>
          by_cases hs : s = render v
          · subst hs
            simp
          · have hne : (render v == s) = false := by
              have hrv : ¬ render v = s := fun h => hs (Eq.symm h)
              simp [hrv]
            simp [hs, hne]

theorem filterMap_fst (F : String → Option γ) (l : List (String × Nat)) :
    (l.filterMap fun p => F p.1) = (l.map fun p => p.1).filterMap F := by
  induction l with
  | nil => rfl
  | cons p rest ih => cases h : F p.1 <;> simp [List.filterMap_cons, h, ih]

theorem filterMap_find?_render (render : V → String) (vs : List V) :
    ∀ keys : List String, (∀ s ∈ keys, s ∈ vs.map render) →
      ((keys.filterMap fun s => vs.find? fun x => render x == s).map render) = keys := by
  intro keys
  induction keys with
  | nil => intro _; simp
  | cons s rest ih =>
    intro h
    have hs : s ∈ vs.map render := h s (List.mem_cons_self _ _)
    obtain ⟨x0, hx0, hx0e⟩ := List.exists_of_mem_map hs
    have hsome : (vs.find? fun x => render x == s).isSome := by
      rw [List.find?_isSome]
      exact ⟨x0, hx0, by simp [hx0e]⟩
    obtain ⟨a, ha⟩ := Option.isSome_iff_exists.mp hsome
    have hpa : (fun x => render x == s) a = true :=
      List.find?_some (p := fun x => render x == s) ha
    have hra : render a = s := by simpa using hpa
    simp only [List.filterMap_cons, ha, List.map_cons, hra]
    rw [ih fun t ht => h t (List.mem_cons_of_mem _ ht)]

/--
C1: for every sequence of `add` calls on an `ErrorContainer`, iterating the
container yields exactly one violation per distinct canonical string — always
the first-added instance for that string (the first `find?` hit), in
first-seen order — so the iteration renders, without repetition, to the
distinct canonical strings in first-seen order; the container's length equals
the number of distinct canonical strings added; and each string's recorded
count equals the number of times a violation rendering to that string was
added.
-/
theorem claim_c1_container_first_seen_wins (V : Type) (render : V → String)
    (vs : List V) :
    (ErrorContainer.addAll render vs).iter =
        (firstSeen (vs.map render)).filterMap
          (fun s => vs.find? fun x => render x == s) ∧
    ((ErrorContainer.addAll render vs).iter.map render) = firstSeen (vs.map render) ∧
    ((ErrorContainer.addAll render vs).iter.map render).Nodup ∧
    (ErrorContainer.addAll render vs).iter.length = (vs.map render).toFinset.card ∧
    (∀ s, dictGet (ErrorContainer.addAll render vs).by_error_str s =
        if s ∈ vs.map render then some ((vs.map render).count s) else none) := by
  obtain ⟨h1, h2, h3, h4⟩ := addAll_state render vs
  have hfun : (fun p : String × Nat =>
      dictGet (ErrorContainer.addAll render vs).error_by_str p.1) =
      fun p : String × Nat => vs.find? fun x => render x == p.1 :=
    funext fun p => h4 p.1
  have hiter : (ErrorContainer.addAll render vs).iter =
      (firstSeen (vs.map render)).filterMap
        fun s => vs.find? fun x => render x == s := by
    show (ErrorContainer.addAll render vs).by_error_str.filterMap
        (fun p => dictGet (ErrorContainer.addAll render vs).error_by_str p.1) = _
    rw [hfun, filterMap_fst (fun s => vs.find? fun x => render x == s), h1]
  have hmap : ((ErrorContainer.addAll render vs).iter.map render) =
      firstSeen (vs.map render) := by
    rw [hiter]
    exact filterMap_find?_render render vs _ fun s hs => (mem_firstSeen _).mp hs
  refine ⟨hiter, hmap, ?_, ?_, h3⟩
  · rw [hmap]
    exact nodup_firstSeen _
  · have hlen : (ErrorContainer.addAll render vs).iter.length =
        ((ErrorContainer.addAll render vs).iter.map render).length :=
      (List.length_map _ _).symm
    rw [hlen, hmap, length_firstSeen]

theorem dictGet_of_mem_nodup (d : List (String × β))
    (hnd : (d.map fun p => p.1).Nodup) (p : String × β) (hp : p ∈ d) :
    dictGet d p.1 = some p.2 := by
  induction d with
  | nil => cases hp
  | cons q rest ih =>
    rw [List.map_cons, List.nodup_cons] at hnd
    obtain ⟨hq1, hq2⟩ := hnd
    rcases List.mem_cons.mp hp with rfl | hp2
    · rw [dictGet_cons, if_pos rfl]
    · have hne : q.1 ≠ p.1 := fun he => hq1 (he ▸ List.mem_map_of_mem _ hp2)
      rw [dictGet_cons, if_neg hne]
      exact ih hq2 hp2

theorem byMostRepeatedLe_iff (p q : String × Nat) :
    byMostRepeatedLe p q ↔ q.2 ≤ p.2 := by
  unfold byMostRepeatedLe keyTupleLe byMostRepeatedKey
  simp only [strLeB_self, and_true]
  omega

instance : IsTotal (String × Nat) byMostRepeatedLe :=
  ⟨fun p q => by
    rw [byMostRepeatedLe_iff, byMostRepeatedLe_iff]
    omega⟩

instance : IsTrans (String × Nat) byMostRepeatedLe :=
  ⟨fun a b c hab hbc => by
    rw [byMostRepeatedLe_iff] at *
    omega⟩

/--
Spec side (the claim's words, for comparison with the source): the tiebreak
the spec describes is the *violation's* kind (class) name — the class of the
first instance stored for the canonical string — not the class of the string.
-/
def kindSpecKey (kindName : V → String) (c : ErrorContainer V)
    (p : String × Nat) : Int × String :=
  (-(p.2 : Int),
    match dictGet c.error_by_str p.1 with
    | some v => kindName v
    | none => "")

/-- Spec side: the comparison the claim describes. -/
def kindSpecLe (kindName : V → String) (c : ErrorContainer V)
    (p q : String × Nat) : Prop :=
  keyTupleLe (kindSpecKey kindName c p) (kindSpecKey kindName c q)

instance (kindName : V → String) (c : ErrorContainer V) :
    DecidableRel (kindSpecLe kindName c) := fun p q =>
  inferInstanceAs
    (Decidable (keyTupleLe (kindSpecKey kindName c p) (kindSpecKey kindName c q)))

/-- Spec side: `by_most_repeated` as the claim describes it, with ties broken
by the violation's kind name. -/
def by_most_repeated_kindSpec (kindName : V → String) (c : ErrorContainer V) :
    List String :=
  (c.by_error_str.insertionSort (kindSpecLe kindName c)).map fun p => p.1

/-- Concrete data refuting the kind-name tiebreak of C2. -/
def c2Where1 : Where := ⟨"n1", "r1", "m1", "s1"⟩

def c2Where2 : Where := ⟨"n2", "r2", "m2", "s2"⟩

def c2Raw : RawPattern := ⟨[], none, c2Where1⟩

/-- A violation of kind `NoPositionalArguments`, added first. -/
def c2ViolationA : Violation := .noPositionalArguments c2Raw c2Where1

/-- A violation of kind `MustSubclassDjangoGenericView`, added second. -/
def c2ViolationB : Violation := .mustSubclassDjangoGenericView c2Raw c2Where2

def c2Container : ErrorContainer Violation :=
  ErrorContainer.addAll Violation.render [c2ViolationA, c2ViolationB]

set_option maxRecDepth 200000 in
/--
C2 counterexample: the claimed tiebreak is false on the code.  Two violations
of different kinds with equal counts — `NoPositionalArguments` added first,
`MustSubclassDjangoGenericView` second.  The source sorts with key
`(-count, pair[0].__class__.__name__)` where `pair[0]` is the rendered
*string*, so the secondary key is constantly `"str"` and the stable sort keeps
first-seen order; the claim's kind-name tiebreak would put the
`MustSubclassDjangoGenericView` string (kind name starting `M`) first.
-/
theorem claim_c2_counterexample :
    ErrorContainer.by_most_repeated c2Container =
      [Violation.render c2ViolationA, Violation.render c2ViolationB] ∧
    by_most_repeated_kindSpec Violation.kindName c2Container =
      [Violation.render c2ViolationB, Violation.render c2ViolationA] ∧
    ErrorContainer.by_most_repeated c2Container ≠
      by_most_repeated_kindSpec Violation.kindName c2Container := by
  exact ⟨by decide, by decide, by decide⟩

/--
C2 (amended): `by_most_repeated` yields the canonical strings sorted by
descending occurrence count; because the secondary sort key is the constant
class name of the rendered string (`"str"`), the stable sort breaks ties by
first-seen order, so two containers built from identical add sequences yield
identical orderings.  Stated for any add sequence `vs`: the output is a
permutation of the distinct canonical strings, pairwise ordered by descending
count, and within each count class equal to the first-seen order.
-/
theorem claim_c2_amended_stable_count_order (V : Type) (render : V → String)
    (vs : List V) :
    ((ErrorContainer.addAll render vs).by_most_repeated).Perm
        (firstSeen (vs.map render)) ∧
    ((ErrorContainer.addAll render vs).by_most_repeated).Pairwise
        (fun s t => (vs.map render).count t ≤ (vs.map render).count s) ∧
    (∀ n : Nat,
      ((ErrorContainer.addAll render vs).by_most_repeated).filter
          (fun s => (vs.map render).count s == n) =
        (firstSeen (vs.map render)).filter
          fun s => (vs.map render).count s == n) := by
  obtain ⟨h1, h2, h3, h4⟩ := addAll_state render vs
  set l := vs.map render with hl
  set bes := (ErrorContainer.addAll render vs).by_error_str with hbes
  have hbmr : (ErrorContainer.addAll render vs).by_most_repeated =
      (bes.insertionSort byMostRepeatedLe).map fun p => p.1 := rfl
  have hnodup : (bes.map fun p => p.1).Nodup := by
    rw [h1]; exact nodup_firstSeen l
  have hperm : (bes.insertionSort byMostRepeatedLe).Perm bes :=
    List.perm_insertionSort byMostRepeatedLe bes
  have hmem_sorted : ∀ p ∈ bes.insertionSort byMostRepeatedLe, p ∈ bes :=
    fun p hp => hperm.mem_iff.mp hp
  have hmemcnt : ∀ p ∈ bes, p.2 = l.count p.1 := by
    intro p hp
    have hg := dictGet_of_mem_nodup bes hnodup p hp
    have h3p := h3 p.1
    rw [hg] at h3p
    by_cases hin : p.1 ∈ l
    · rw [if_pos hin] at h3p
      exact Option.some_inj.mp h3p
    · rw [if_neg hin] at h3p
      cases h3p
  refine ⟨?_, ?_, ?_⟩
  · rw [hbmr, ← h1]
    exact hperm.map fun p => p.1
  · rw [hbmr, List.pairwise_map]
    have hsorted : (bes.insertionSort byMostRepeatedLe).Pairwise byMostRepeatedLe :=
      List.sorted_insertionSort byMostRepeatedLe bes
    refine hsorted.imp_of_mem ?_
    intro p q hp hq hle
    have hcnt := (byMostRepeatedLe_iff p q).mp hle
    rw [hmemcnt p (hmem_sorted p hp), hmemcnt q (hmem_sorted q hq)] at hcnt
    exact hcnt
  · intro n
    have hpred : ∀ p ∈ bes, (l.count p.1 == n) = (p.2 == n) := by
      intro p hp
      rw [hmemcnt p hp]
    have htied_pair : (bes.filter fun p => p.2 == n).Pairwise byMostRepeatedLe := by
      apply List.pairwise_of_forall_mem_list
      intro p hp q hq
      have hpn : p.2 = n := by simpa using (List.mem_filter.mp hp).2
      have hqn : q.2 = n := by simpa using (List.mem_filter.mp hq).2
      rw [byMostRepeatedLe_iff, hpn, hqn]
    have hsub : List.Sublist (bes.filter fun p => p.2 == n)
        (bes.insertionSort byMostRepeatedLe) :=
      List.sublist_insertionSort htied_pair (List.filter_sublist _)
    have hfeq : (bes.insertionSort byMostRepeatedLe).filter (fun p => p.2 == n) =
        bes.filter fun p => p.2 == n := by
      have hsub2 : List.Sublist (bes.filter fun p => p.2 == n)
          ((bes.insertionSort byMostRepeatedLe).filter fun p => p.2 == n) := by
        have hs := hsub.filter fun p => p.2 == n
        have hself : (bes.filter fun p => p.2 == n).filter (fun p => p.2 == n) =
            bes.filter fun p => p.2 == n := by
          apply List.filter_eq_self.mpr
          intro a ha
          exact (List.mem_filter.mp ha).2
        rwa [hself] at hs
      have hlen : ((bes.insertionSort byMostRepeatedLe).filter fun p => p.2 == n).length =
          (bes.filter fun p => p.2 == n).length :=
        (hperm.filter _).length_eq
      exact (hsub2.eq_of_length hlen.symm).symm
    rw [hbmr, ← h1, List.filter_map, List.filter_map]
    congr 1
    have hA : (bes.insertionSort byMostRepeatedLe).filter
        ((fun s => l.count s == n) ∘ fun p => p.1) =
        (bes.insertionSort byMostRepeatedLe).filter fun p => p.2 == n :=
      List.filter_congr fun p hp => hpred p (hmem_sorted p hp)
    have hB : bes.filter ((fun s => l.count s == n) ∘ fun p => p.1) =
        bes.filter fun p => p.2 == n :=
      List.filter_congr fun p hp => hpred p hp
    rw [hA, hB, hfeq]

theorem matches_iff (arg : FunctionArg) (anno : Ann) :
    arg.matches anno = true ↔
      (arg.anno = Ann.any ∨ (arg.is_variable_keywords = true ∧ arg.anno = Ann.obj) ∨
        ∀ req ∈ Ann.expandMembers anno , req ∈ Ann.expandMembers arg.anno) := by
  unfold FunctionArg.matches
  by_cases h1 : arg.anno = Ann.any <;>
    by_cases h2 : arg.is_variable_keywords = true <;>
    by_cases h3 : arg.anno = Ann.obj <;>
    simp [h1, h2, h3, List.all_eq_true, List.contains, List.elem_iff]

/--
C4: `matches(param, required)` returns true iff the parameter's annotation is
the universal `Any` marker, or the parameter is variadic-keyword with
annotation `object`, or — expanding each side to its member set (a union to
its members, anything else to a singleton) — every member of the required set
is contained in the accepted set (containment, not symmetric equality).
-/
theorem claim_c4_matches_containment (arg : FunctionArg) (anno : Ann) :
    arg.matches anno = true ↔
      (arg.anno = Ann.any ∨ (arg.is_variable_keywords = true ∧ arg.anno = Ann.obj) ∨
        ∀ req ∈ Ann.expandMembers anno , req ∈ Ann.expandMembers arg.anno) :=
  matches_iff arg anno

/--
C10: the `matches` predicate is asymmetric with respect to `Any`: for a
non-variadic-keyword parameter, `matches(param, Any)` holds exactly when
`Any` is itself a member of the parameter's accepted set, so a parameter
annotated with a single concrete type never matches a required `Any`.
-/
theorem claim_c10_any_requirement_not_wildcard (arg : FunctionArg) (t : String)
    (hvk : arg.is_variable_keywords = false) :
    (arg.anno = Ann.typ t → arg.matches Ann.any = false) ∧
    (arg.matches Ann.any = true ↔ Ann.any ∈ Ann.expandMembers arg.anno) := by
  have hiff := matches_iff arg Ann.any
  have hexp : Ann.expandMembers Ann.any = [Ann.any] := rfl
  have hmain : arg.matches Ann.any = true ↔ Ann.any ∈ Ann.expandMembers arg.anno := by
    rw [hiff]
    constructor
    · rintro (h | ⟨h1, h2⟩ | h)
      · rw [h]
        show Ann.any ∈ Ann.expandMembers Ann.any
        rw [hexp]
        exact List.mem_singleton.mpr rfl
      · rw [hvk] at h1
        cases h1
      · refine h Ann.any ?_
        rw [hexp]
        exact List.mem_singleton.mpr rfl
    · intro h
      refine Or.inr (Or.inr ?_)
      intro req hreq
      rw [hexp] at hreq
      rw [List.mem_singleton.mp hreq]
      exact h
  refine ⟨?_, hmain⟩
  intro ht
  cases hb : arg.matches Ann.any
  · rfl
  · exfalso
    have hm := hmain.mp hb
    rw [ht] at hm
    simp [Ann.expandMembers] at hm

/--
Witness for C10 at a concrete parameter `x : int` (not variadic-keyword):
`matches(x, Any)` is false.
-/
theorem claim_c10_witness :
    ({ name := "x", required := true, keyword_only := false,
        anno := Ann.typ "int" } : FunctionArg).is_variable_keywords = false ∧
    FunctionArg.matches
      { name := "x", required := true, keyword_only := false,
        anno := Ann.typ "int" } Ann.any = false := by
  refine ⟨rfl, ?_⟩
  have h := claim_c10_any_requirement_not_wildcard
    { name := "x", required := true, keyword_only := false,
      anno := Ann.typ "int" } "int" rfl
  exact h.1 rfl

/-- An `is_mistyped` hook that never reports (irrelevant to the C3 input). -/
def c3MistypedNone : DispatchFunction → Ann → Ann → Ann → String → Nat →
    Option Incorrect :=
  fun _ _ _ _ _ _ => none

/-- The positional scenario configured with `disallow_var_args=False`,
`enforce_keyword_args=True`. -/
def c3Scenario : CheckPositionalArgsScenario :=
  { disallow_var_args := false, enforce_keyword_args := true,
    is_mistyped := c3MistypedNone }

/-- A handler `my_view(request: HttpRequest, *args)` against the positional
context `[("request", HttpRequest)]`: the context is consumed cleanly and a
variadic-positional parameter remains. -/
def c3Function : DispatchFunction :=
  { function :=
      { name := "my_view", module := "m", allows_arbitrary := false,
        function_args :=
          [ { name := "request", required := true, keyword_only := false,
              anno := Ann.typ "HttpRequest" },
            { name := "args", required := false, keyword_only := false,
              anno := Ann.any, is_variable_positional := true } ] },
    positional := [("request", Ann.typ "HttpRequest")] }

/--
C3, the divergent corner: with `disallow_var_args=False` and
`enforce_keyword_args=True`, the loop's `elif self.enforce_keyword_args`
catches the remaining variadic-positional parameter too, so the run emits a
`MismatchedRequiredArgs` with a make-keyword-only entry for `*args` — advice
that is impossible for a variadic-positional parameter — where the claim
(and the scenario's own docstring, which gates `*args` complaints on
`disallow_var_args`) says nothing is emitted for it.
-/
theorem claim_c3_var_args_make_keyword_only_bug :
    CheckPositionalArgsScenario.run c3Scenario (Ann.typ "User") c3Function =
      [Violation.mismatchedRequiredArgs c3Function
        [Incorrect.make_keyword_only "args"]] := by
  decide

theorem mem_setAdd (s : List String) (x nm : String) :
    nm ∈ setAdd s x ↔ nm ∈ s ∨ nm = x := by
  unfold setAdd
  by_cases h : s.contains x = true
  · rw [if_pos h]
    have hx : x ∈ s := by simpa [List.contains, List.elem_iff] using h
    constructor
    · exact Or.inl
    · rintro (h1 | rfl)
      · exact h1
      · exact hx
  · rw [if_neg h]
    simp [List.mem_append]

theorem nodup_setAdd (s : List String) (x : String) (h : s.Nodup) :
    (setAdd s x).Nodup := by
  unfold setAdd
  by_cases hc : s.contains x = true
  · rw [if_pos hc]
    exact h
  · rw [if_neg hc]
    have hx : x ∉ s := fun hmem => hc (by simpa [List.contains, List.elem_iff])
    rw [List.nodup_append]
    exact ⟨h, List.nodup_singleton x, by simp [hx]⟩

theorem mem_foldl_setAdd (name_of : α → String) :
    ∀ (xs : List α) (init : List String) (nm : String),
      nm ∈ xs.foldl (fun acc a => setAdd acc (name_of a)) init ↔
        nm ∈ init ∨ ∃ a ∈ xs, name_of a = nm := by
  intro xs
  induction xs with
  | nil => intro init nm; simp
  | cons x rest ih =>
    intro init nm
    rw [List.foldl_cons, ih, mem_setAdd]
    constructor
    · rintro ((h | h) | ⟨a, ha, hae⟩)
      · exact Or.inl h
      · exact Or.inr ⟨x, List.mem_cons_self _ _, h.symm⟩
      · exact Or.inr ⟨a, List.mem_cons_of_mem _ ha, hae⟩
    · rintro (h | ⟨a, ha, hae⟩)
      · exact Or.inl (Or.inl h)
      · rcases List.mem_cons.mp ha with rfl | ha2
        · exact Or.inl (Or.inr hae.symm)
        · exact Or.inr ⟨a, ha2, hae⟩

theorem nodup_foldl_setAdd (name_of : α → String) :
    ∀ (xs : List α) (init : List String), init.Nodup →
      (xs.foldl (fun acc a => setAdd acc (name_of a)) init).Nodup := by
  intro xs
  induction xs with
  | nil => intro init h; simpa
  | cons x rest ih =>
    intro init h
    rw [List.foldl_cons]
    exact ih _ (nodup_setAdd init (name_of x) h)

theorem requiredArgsCollect_cons_cons (parts : List RawPatternPart)
    (p : String × Ann) (posRest : List (String × Ann)) (missing : List String)
    (arg : FunctionArg) (rest : List FunctionArg) :
    requiredArgsCollect parts (p :: posRest) missing (arg :: rest) =
      if arg.is_self then requiredArgsCollect parts (p :: posRest) missing rest
      else requiredArgsCollect parts posRest missing rest := rfl

theorem requiredArgsCollect_cons_nil (parts : List RawPatternPart)
    (missing : List String) (arg : FunctionArg) (rest : List FunctionArg) :
    requiredArgsCollect parts [] missing (arg :: rest) =
      if arg.is_self then requiredArgsCollect parts [] missing rest
      else
        if arg.required &&
            !(parts.any fun part => part.capturedNames.contains arg.name) &&
            !(parts.any fun part => part.default_arg_names.contains arg.name) then
          requiredArgsCollect parts [] (setAdd missing arg.name) rest
        else requiredArgsCollect parts [] missing rest := rfl

/-- The loop of the required-arg-coverage scenario collects, as a set, the
names of the required-but-uncovered args past the positional context. -/
theorem requiredArgsCollect_eq (parts : List RawPatternPart) :
    ∀ (args : List FunctionArg) (positional : List (String × Ann))
      (missing : List String),
      requiredArgsCollect parts positional missing args =
        (((args.filter fun a => !a.is_self).drop positional.length).filter fun arg =>
            arg.required &&
              !(parts.any fun part => part.capturedNames.contains arg.name) &&
              !(parts.any fun part => part.default_arg_names.contains arg.name)).foldl
          (fun acc arg => setAdd acc arg.name) missing := by
  intro args
  induction args with
  | nil => intro positional missing; simp [requiredArgsCollect]
  | cons arg rest ih =>
    intro positional missing
    by_cases hself : arg.is_self = true
    · have hfc : (arg :: rest).filter (fun a => !a.is_self) =
          rest.filter fun a => !a.is_self := by
        rw [List.filter_cons]
        simp [hself]
      cases positional with
      | cons p posRest =>
        rw [requiredArgsCollect_cons_cons, if_pos hself, hfc]
        exact ih (p :: posRest) missing
      | nil =>
        rw [requiredArgsCollect_cons_nil, if_pos hself, hfc]
        exact ih [] missing
    · have hself' : (!arg.is_self) = true := by
        cases h : arg.is_self
        · rfl
        · exact absurd h hself
      have hfc : (arg :: rest).filter (fun a => !a.is_self) =
          arg :: rest.filter fun a => !a.is_self := by
        rw [List.filter_cons, if_pos hself']
      cases positional with
      | cons p posRest =>
        rw [requiredArgsCollect_cons_cons, if_neg hself, hfc, List.length_cons,
          List.drop_succ_cons]
        exact ih posRest missing
      | nil =>
        rw [requiredArgsCollect_cons_nil, if_neg hself, hfc, List.length_nil,
          List.drop_zero, List.filter_cons]
        by_cases hcond : (arg.required &&
            !(parts.any fun part => part.capturedNames.contains arg.name) &&
            !(parts.any fun part => part.default_arg_names.contains arg.name)) = true
        · rw [if_pos hcond, if_pos hcond, List.foldl_cons]
          have hr := ih [] (setAdd missing arg.name)
          simp only [List.length_nil, List.drop_zero] at hr
          exact hr
        · rw [if_neg hcond, if_neg hcond]
          have hr := ih [] missing
          simp only [List.length_nil, List.drop_zero] at hr
          exact hr

theorem availableArgNames_cons_cons (p : String × Ann)
    (posRest : List (String × Ann)) (available : List String)
    (arg : FunctionArg) (rest : List FunctionArg) :
    availableArgNames (p :: posRest) available (arg :: rest) =
      if arg.is_self then availableArgNames (p :: posRest) available rest
      else availableArgNames posRest available rest := rfl

theorem availableArgNames_cons_nil (available : List String)
    (arg : FunctionArg) (rest : List FunctionArg) :
    availableArgNames [] available (arg :: rest) =
      if arg.is_self then availableArgNames [] available rest
      else
        if arg.is_variable_keywords || arg.is_variable_positional then
          availableArgNames [] available rest
        else availableArgNames [] (setAdd available arg.name) rest := rfl

/-- The first loop of the captured-args-accepted scenario collects, as a set,
the names of the non-variadic args past the positional context. -/
theorem availableArgNames_eq :
    ∀ (args : List FunctionArg) (positional : List (String × Ann))
      (available : List String),
      availableArgNames positional available args =
        (((args.filter fun a => !a.is_self).drop positional.length).filter fun arg =>
            !(arg.is_variable_keywords || arg.is_variable_positional)).foldl
          (fun acc arg => setAdd acc arg.name) available := by
  intro args
  induction args with
  | nil => intro positional available; simp [availableArgNames]
  | cons arg rest ih =>
    intro positional available
    by_cases hself : arg.is_self = true
    · have hfc : (arg :: rest).filter (fun a => !a.is_self) =
          rest.filter fun a => !a.is_self := by
        rw [List.filter_cons]
        simp [hself]
      cases positional with
      | cons p posRest =>
        rw [availableArgNames_cons_cons, if_pos hself, hfc]
        exact ih (p :: posRest) available
      | nil =>
        rw [availableArgNames_cons_nil, if_pos hself, hfc]
        exact ih [] available
    · have hself' : (!arg.is_self) = true := by
        cases h : arg.is_self
        · rfl
        · exact absurd h hself
      have hfc : (arg :: rest).filter (fun a => !a.is_self) =
          arg :: rest.filter fun a => !a.is_self := by
        rw [List.filter_cons, if_pos hself']
      cases positional with
      | cons p posRest =>
        rw [availableArgNames_cons_cons, if_neg hself, hfc, List.length_cons,
          List.drop_succ_cons]
        exact ih posRest available
      | nil =>
        rw [availableArgNames_cons_nil, if_neg hself, hfc, List.length_nil,
          List.drop_zero, List.filter_cons]
        by_cases hvar : (arg.is_variable_keywords || arg.is_variable_positional) = true
        · have hvar' : (!(arg.is_variable_keywords || arg.is_variable_positional)) = false := by
            rw [hvar]
            rfl
          rw [if_pos hvar, if_neg (by rw [hvar']; exact Bool.false_ne_true)]
          have hr := ih [] available
          simp only [List.length_nil, List.drop_zero] at hr
          exact hr
        · have hvar0 : (arg.is_variable_keywords || arg.is_variable_positional) = false := by
            cases h : (arg.is_variable_keywords || arg.is_variable_positional)
            · rfl
            · exact absurd h hvar
          have hvar' : (!(arg.is_variable_keywords || arg.is_variable_positional)) = true := by
            rw [hvar0]
            rfl
          rw [if_neg hvar, if_pos hvar', List.foldl_cons]
          have hr := ih [] (setAdd available arg.name)
          simp only [List.length_nil, List.drop_zero] at hr
          exact hr

theorem uncovered_cond_iff (parts : List RawPatternPart) (a : FunctionArg) :
    (a.required &&
        !(parts.any fun part => part.capturedNames.contains a.name) &&
        !(parts.any fun part => part.default_arg_names.contains a.name)) = true ↔
      a.required = true ∧
        ∀ part ∈ parts, a.name ∉ part.capturedNames ∧ a.name ∉ part.default_arg_names := by
  simp only [Bool.and_eq_true, Bool.not_eq_true', List.any_eq_false, List.contains,
    List.elem_iff]
  constructor
  · rintro ⟨⟨hreq, hcap⟩, hdef⟩
    exact ⟨hreq, fun part hp => ⟨hcap part hp, hdef part hp⟩⟩
  · rintro ⟨hreq, h⟩
    exact ⟨⟨hreq, fun part hp => (h part hp).1⟩, fun part hp => (h part hp).2⟩

/--
C7: the required-arg-coverage scenario collects exactly the names of the
parameters past the positional context (skipping `self`) that are required
and appear in no route part's captured names nor default-bound names; the
collection is duplicate-free; and the run adds exactly one
`RequiredArgOnViewNotAlwaysRequiredByPattern` violation — carrying every
part's `Where` and the missing-name set — when the collection is non-empty,
and nothing otherwise.
-/
theorem claim_c7_required_arg_coverage (auth : Ann) (pattern : ViewPattern)
    (function : DispatchFunction) :
    (∀ nm,
      nm ∈ requiredArgsCollect pattern.parts function.positional []
          function.function_args ↔
        ∃ arg ∈ (function.function_args.filter fun a =>
            !a.is_self).drop function.positional.length,
          arg.name = nm ∧ arg.required = true ∧
            ∀ part ∈ pattern.parts,
              nm ∉ part.capturedNames ∧ nm ∉ part.default_arg_names) ∧
    (requiredArgsCollect pattern.parts function.positional []
        function.function_args).Nodup ∧
    checkRequiredArgsRun auth pattern function =
      (if (requiredArgsCollect pattern.parts function.positional []
            function.function_args).isEmpty
       then []
       else
         [Violation.requiredArgOnViewNotAlwaysRequiredByPattern
           (pattern.parts.map fun part => part.where_) function
           (requiredArgsCollect pattern.parts function.positional []
             function.function_args)]) := by
  refine ⟨?_, ?_, rfl⟩
  · intro nm
    rw [requiredArgsCollect_eq, mem_foldl_setAdd]
    constructor
    · rintro (h | ⟨a, ha, hae⟩)
      · exact absurd h (List.not_mem_nil nm)
      · obtain ⟨hmem, hcond⟩ := List.mem_filter.mp ha
        obtain ⟨hreq, hparts⟩ := (uncovered_cond_iff pattern.parts a).mp hcond
        exact ⟨a, hmem, hae, hreq, hae ▸ hparts⟩
    · rintro ⟨a, hmem, hae, hreq, hparts⟩
      refine Or.inr ⟨a, List.mem_filter.mpr ⟨hmem, ?_⟩, hae⟩
      exact (uncovered_cond_iff pattern.parts a).mpr ⟨hreq, hae ▸ hparts⟩
  · rw [requiredArgsCollect_eq]
    exact nodup_foldl_setAdd _ _ [] List.nodup_nil

/-- The pairs the captured-args-accepted scenario collects: for every part,
every captured or default-bound name not among the available names, tagged
with that part's `Where`. -/
def capturedMissing (pattern : ViewPattern) (function : DispatchFunction) :
    List (Where × String) :=
  pattern.parts.flatMap fun part =>
    ((part.capturedNames ++ part.default_arg_names).filter fun name =>
        !(availableArgNames function.positional []
            function.function_args).contains name).map
      fun name => (part.where_, name)

/--
C8: the captured-args-accepted scenario is a no-op when the function allows
arbitrary keyword args; otherwise the available names are exactly the names
of the non-variadic parameters past the positional context (skipping `self`),
the collected pairs are exactly the (part `Where`, name) pairs of captured or
default-bound names absent from the available names, and the run adds exactly
one `ViewDoesNotAcceptCapturedArg` violation when anything is collected and
nothing otherwise.
-/
theorem claim_c8_captured_args_accepted (auth : Ann) (pattern : ViewPattern)
    (function : DispatchFunction) :
    (∀ nm,
      nm ∈ availableArgNames function.positional [] function.function_args ↔
        ∃ arg ∈ (function.function_args.filter fun a =>
            !a.is_self).drop function.positional.length,
          arg.name = nm ∧ arg.is_variable_keywords = false ∧
            arg.is_variable_positional = false) ∧
    (∀ w nm, (w, nm) ∈ capturedMissing pattern function ↔
      ∃ part ∈ pattern.parts, part.where_ = w ∧
        (nm ∈ part.capturedNames ∨ nm ∈ part.default_arg_names) ∧
        nm ∉ availableArgNames function.positional [] function.function_args) ∧
    checkAcceptsArgsRun auth pattern function =
      (if function.allows_arbitrary then []
       else if (capturedMissing pattern function).isEmpty then []
       else
         [Violation.viewDoesNotAcceptCapturedArg pattern.where_
           (capturedMissing pattern function) function]) := by
  refine ⟨?_, ?_, rfl⟩
  · intro nm
    rw [availableArgNames_eq, mem_foldl_setAdd]
    constructor
    · rintro (h | ⟨a, ha, hae⟩)
      · exact absurd h (List.not_mem_nil nm)
      · obtain ⟨hmem, hcond⟩ := List.mem_filter.mp ha
        rw [Bool.not_eq_true', Bool.or_eq_false_iff] at hcond
        exact ⟨a, hmem, hae, hcond.1, hcond.2⟩
    · rintro ⟨a, hmem, hae, hvk, hvp⟩
      refine Or.inr ⟨a, List.mem_filter.mpr ⟨hmem, ?_⟩, hae⟩
      rw [Bool.not_eq_true', Bool.or_eq_false_iff]
      exact ⟨hvk, hvp⟩
  · intro w nm
    unfold capturedMissing
    rw [List.mem_flatMap]
    constructor
    · rintro ⟨part, hpart, hmem⟩
      obtain ⟨name, hname, heq⟩ := List.mem_map.mp hmem
      obtain ⟨hin, hcon⟩ := List.mem_filter.mp hname
      obtain ⟨hw, hn⟩ := Prod.mk.injEq _ _ _ _ ▸ heq
      refine ⟨part, hpart, hw.symm ▸ rfl, ?_, ?_⟩
      · rw [← hn]
        exact List.mem_append.mp hin
      · rw [Bool.not_eq_true', List.contains, ← Bool.not_eq_true, List.elem_iff] at hcon
        rw [← hn]
        exact hcon
    · rintro ⟨part, hpart, hw, hin, havail⟩
      refine ⟨part, hpart, ?_⟩
      refine List.mem_map.mpr ⟨nm, ?_, by rw [hw]⟩
      refine List.mem_filter.mpr ⟨List.mem_append.mpr hin, ?_⟩
      rw [Bool.not_eq_true', List.contains, ← Bool.not_eq_true, List.elem_iff]
      exact havail

/--
Spec side (the claim's words, for comparison with the source): valid iff the
annotation equals a whitelist entry, or it is a configured container shape
whose *single* type argument equals the auth user type.
-/
def requestAnnoClaimValidSingleArg (sc : RequestAnnoScenario) (auth_user_model : Ann)
    (anno : Ann) : Bool :=
  sc.acceptable_annos.contains anno ||
    (match anno with
     | Ann.app base args =>
        sc.acceptable_containers.contains (Ann.typ base) && args == [auth_user_model]
     | _ => false)

/-- The C9 scenario configuration: one container `Authenticated`, empty
whitelist. -/
def c9Scenario : RequestAnnoScenario :=
  { acceptable_annos := [], acceptable_containers := [Ann.typ "Authenticated"] }

/-- The C9 annotation `Authenticated[User, Int]`: two type arguments, the
first being the auth user type. -/
def c9Anno : Ann := Ann.app "Authenticated" [Ann.typ "User", Ann.typ "Int"]

/--
C9 counterexample: on `Authenticated[User, Int]` the code accepts (it only
checks that the argument list is non-empty and its *first* element equals the
auth user model), while the claim's "single type argument equals the
authenticated-user type" rejects.
-/
theorem claim_c9_counterexample :
    RequestAnnoScenario.annoIsValid c9Scenario (Ann.typ "User") c9Anno = true ∧
    requestAnnoClaimValidSingleArg c9Scenario (Ann.typ "User") c9Anno = false := by
  exact ⟨by decide, by decide⟩

/--
C9 (amended): the request-context annotation check judges an annotation valid
iff it equals a configured whitelist entry, or it is a configured
user-parameterized container shape whose *first* type argument equals the
configured authenticated-user type (type arguments beyond the first are not
examined); the run emits exactly one configured `InvalidRequestAnnotation`
for an invalid annotation on a handler-class's `request` attribute, and is a
no-op when there is no handler class or no request annotation.
-/
theorem claim_c9_amended_request_annotation (sc : RequestAnnoScenario)
    (auth_user_model : Ann) (anno : Ann) (pattern : ViewPattern)
    (class_display : String) :
    (sc.annoIsValid auth_user_model anno = true ↔
      (anno ∈ sc.acceptable_annos ∨
        ∃ base args, anno = Ann.app base args ∧
          Ann.typ base ∈ sc.acceptable_containers ∧
          args.head? = some auth_user_model)) ∧
    RequestAnnoScenario.run sc auth_user_model pattern class_display =
      (match pattern.view_class, pattern.request_anno with
       | some vc, some ra =>
          if sc.annoIsValid auth_user_model ra then []
          else
            [Violation.invalidRequestAnno pattern.where_ vc ra auth_user_model
              class_display sc.acceptable_annos sc.acceptable_containers
              sc.error_expect sc.error_note]
       | _, _ => []) := by
  constructor
  · unfold RequestAnnoScenario.annoIsValid
    by_cases hw : sc.acceptable_annos.contains anno = true
    · rw [if_pos hw]
      simp only [true_iff]
      exact Or.inl (by simpa [List.contains, List.elem_iff] using hw)
    · rw [if_neg hw]
      have hw' : anno ∉ sc.acceptable_annos := by
        intro hmem
        exact hw (by simpa [List.contains, List.elem_iff])
      cases anno with
      | app base args =>
        cases args with
        | nil =>
          simp [Ann.getOrigin, Ann.getArgs, hw']
        | cons a args' =>
          simp only [Ann.getOrigin, Ann.getArgs]
          constructor
          · intro h
            rw [Bool.and_eq_true] at h
            obtain ⟨hc, he⟩ := h
            refine Or.inr ⟨base, a :: args', rfl, ?_, ?_⟩
            · simpa [List.contains, List.elem_iff] using hc
            · simp only [List.head?]
              rw [show a = auth_user_model by simpa using he]
          · rintro (h | ⟨base2, args2, heq, hc, hh⟩)
            · exact absurd h hw'
            · obtain ⟨hb, ha⟩ := Ann.app.injEq _ _ _ _ ▸ heq
              rw [Bool.and_eq_true]
              constructor
              · rw [hb]
                simpa [List.contains, List.elem_iff] using hc
              · have : a = auth_user_model := by
                  have := hh
                  rw [← ha] at this
                  simpa [List.head?] using this
                simp [this]
      | any => simp [Ann.getOrigin, Ann.getArgs, hw']
      | obj => simp [Ann.getOrigin, Ann.getArgs, hw']
      | typ n => simp [Ann.getOrigin, Ann.getArgs, hw']
      | union ms => simp [Ann.getOrigin, Ann.getArgs, hw']
  · unfold RequestAnnoScenario.run
    cases pattern.view_class with
    | none => rfl
    | some vc =>
      cases pattern.request_anno with
      | none => rfl
      | some ra => rfl

theorem addAll_anyErrors (render : V → String) (vs : List V) :
    (ErrorContainer.addAll render vs).anyErrors = !vs.isEmpty := by
  obtain ⟨h1, h2, h3, h4⟩ := addAll_state render vs
  cases vs with
  | nil => rfl
  | cons v rest =>
    have hfs : firstSeen ((v :: rest).map render) =
        render v :: firstSeenAux [render v] (rest.map render) := by
      rw [List.map_cons, firstSeen, firstSeenAux_cons, if_neg (List.not_mem_nil _)]
    cases hbes : (ErrorContainer.addAll render (v :: rest)).by_error_str with
    | nil =>
      rw [hbes] at h1
      rw [hfs] at h1
      cases h1
    | cons p ps =>
      have hp1 : p.1 ∈ firstSeen ((v :: rest).map render) := by
        rw [← h1, hbes]
        exact List.mem_map_of_mem _ (List.mem_cons_self _ _)
      have hp1l : p.1 ∈ (v :: rest).map render := (mem_firstSeen _).mp hp1
      obtain ⟨x, hx, hxe⟩ := List.exists_of_mem_map hp1l
      have hfind : ((v :: rest).find? fun y => render y == p.1).isSome := by
        rw [List.find?_isSome]
        exact ⟨x, hx, by simp [hxe]⟩
      obtain ⟨a, ha⟩ := Option.isSome_iff_exists.mp hfind
      have hg : dictGet (ErrorContainer.addAll render (v :: rest)).error_by_str p.1 =
          some a := by
        rw [h4]
        exact ha
      have hiter : (ErrorContainer.addAll render (v :: rest)).iter =
          (p :: ps).filterMap fun q =>
            dictGet (ErrorContainer.addAll render (v :: rest)).error_by_str q.1 := by
        unfold ErrorContainer.iter
        rw [hbes]
      unfold ErrorContainer.anyErrors
      rw [hiter, List.filterMap_cons, hg]
      rfl

/-- Whether the optional excluder skips a raw pattern. -/
def excluderSkips {Raw : Type} (excluder : Option (Raw → Bool)) (r : Raw) : Bool :=
  match excluder with
  | some f => f r
  | none => false

/-- The violation a maker call contributes to the aggregator, when any. -/
def makerInvalidPart {Raw P V E : Type} (maker : Raw → MakerResult P V E) (r : Raw) :
    Option V :=
  match maker r with
  | .invalid v => some v
  | _ => none

/-- The pattern a maker call contributes to the runner, when any. -/
def makerOkPart {Raw P V E : Type} (maker : Raw → MakerResult P V E) (r : Raw) :
    Option P :=
  match maker r with
  | .ok p => some p
  | _ => none

theorem fromRawAux_cons (render : V → String) (excluder : Option (Raw → Bool))
    (maker : Raw → MakerResult P V E) (errors : ErrorContainer V)
    (patterns : List P) (raw : Raw) (rest : List Raw) :
    fromRawAux render excluder maker errors patterns (raw :: rest) =
      (if excluderSkips excluder raw then
        fromRawAux render excluder maker errors patterns rest
      else
        match maker raw with
        | .failure e => .exception e
        | .invalid v =>
            fromRawAux render excluder maker (errors.add render v) patterns rest
        | .ok p =>
            fromRawAux render excluder maker errors (patterns ++ [p]) rest) := rfl

/-- Processing a failure-free prefix accumulates its invalids into the
aggregator and its built patterns, then continues. -/
theorem fromRawAux_prefix (render : V → String) (excluder : Option (Raw → Bool))
    (maker : Raw → MakerResult P V E) :
    ∀ (raws1 : List Raw) (rest : List Raw) (errors : ErrorContainer V)
      (patterns : List P),
      (∀ q ∈ raws1.filter fun x => !excluderSkips excluder x,
        ∀ e, maker q ≠ .failure e) →
      fromRawAux render excluder maker errors patterns (raws1 ++ rest) =
        fromRawAux render excluder maker
          (errors.addSeq render
            ((raws1.filter fun x => !excluderSkips excluder x).filterMap
              (makerInvalidPart maker)))
          (patterns ++
            (raws1.filter fun x => !excluderSkips excluder x).filterMap
              (makerOkPart maker))
          rest := by
  intro raws1
  induction raws1 with
  | nil =>
    intro rest errors patterns hfail
    simp [ErrorContainer.addSeq]
  | cons q raws1t ih =>
    intro rest errors patterns hfail
    rw [List.cons_append, fromRawAux_cons]
    by_cases hex : excluderSkips excluder q = true
    · rw [if_pos hex]
      have hfc : ((q :: raws1t).filter fun x => !excluderSkips excluder x) =
          raws1t.filter fun x => !excluderSkips excluder x := by
        rw [List.filter_cons]
        simp [hex]
      rw [hfc]
      exact ih rest errors patterns (by rw [hfc] at hfail; exact hfail)
    · rw [if_neg hex]
      have hex' : (!excluderSkips excluder q) = true := by
        cases h : excluderSkips excluder q
        · rfl
        · exact absurd h hex
      have hfc : ((q :: raws1t).filter fun x => !excluderSkips excluder x) =
          q :: raws1t.filter fun x => !excluderSkips excluder x := by
        rw [List.filter_cons, if_pos hex']
      rw [hfc] at hfail ⊢
      have hq : ∀ e, maker q ≠ .failure e := hfail q (List.mem_cons_self _ _)
      have hfail2 : ∀ q2 ∈ raws1t.filter fun x => !excluderSkips excluder x,
          ∀ e, maker q2 ≠ .failure e :=
        fun q2 hq2 => hfail q2 (List.mem_cons_of_mem _ hq2)
      cases hmk : maker q with
      | failure e => exact absurd hmk (hq e)
      | invalid v =>
        dsimp only
        have hinv : makerInvalidPart maker q = some v := by
          unfold makerInvalidPart
          rw [hmk]
        have hok : makerOkPart maker q = none := by
          unfold makerOkPart
          rw [hmk]
        rw [List.filterMap_cons, List.filterMap_cons, hinv, hok]
        rw [ih rest (errors.add render v) patterns hfail2]
        rfl
      | ok p =>
        dsimp only
        have hinv : makerInvalidPart maker q = none := by
          unfold makerInvalidPart
          rw [hmk]
        have hok : makerOkPart maker q = some p := by
          unfold makerOkPart
          rw [hmk]
        rw [List.filterMap_cons, List.filterMap_cons, hinv, hok]
        rw [ih rest errors (patterns ++ [p]) hfail2]
        simp

/-- Exhausting the raw patterns raises the batch failure exactly when the
aggregator is non-empty, else returns the runner. -/
theorem fromRawAux_nil (render : V → String) (excluder : Option (Raw → Bool))
    (maker : Raw → MakerResult P V E) (errors : ErrorContainer V)
    (patterns : List P) :
    fromRawAux render excluder maker errors patterns [] =
      (if errors.anyErrors then .foundInvalid errors else .runner patterns) := rfl

/--
C6: `TestRunner.from_raw_patterns` processes every raw route in order,
skipping routes the optional excluder rejects; a maker call that raises
`InvalidPattern` is recorded into the fresh aggregator and the loop
continues, while any other exception from the maker propagates immediately;
after all inputs a batch failure carrying the aggregator is raised iff the
aggregator is non-empty, and otherwise the runner holds every successfully
built pattern in order.
-/
theorem claim_c6_orchestrator_construction {Raw P V E : Type} (render : V → String)
    (excluder : Option (Raw → Bool)) (maker : Raw → MakerResult P V E)
    (raws : List Raw) :
    ((∀ q ∈ raws.filter fun x => !excluderSkips excluder x, ∀ e, maker q ≠ .failure e) →
      fromRawPatterns render excluder maker raws =
        (if ((raws.filter fun x => !excluderSkips excluder x).filterMap
              (makerInvalidPart maker)).isEmpty then
          BuildOutcome.runner
            ((raws.filter fun x => !excluderSkips excluder x).filterMap
              (makerOkPart maker))
        else
          BuildOutcome.foundInvalid
            (ErrorContainer.addAll render
              ((raws.filter fun x => !excluderSkips excluder x).filterMap
                (makerInvalidPart maker))))) ∧
    (∀ (raws1 : List Raw) (r : Raw) (raws2 : List Raw) (e : E),
      raws = raws1 ++ r :: raws2 →
      (∀ q ∈ raws1.filter fun x => !excluderSkips excluder x, ∀ e2, maker q ≠ .failure e2) →
      excluderSkips excluder r = false →
      maker r = .failure e →
      fromRawPatterns render excluder maker raws = BuildOutcome.exception e) := by
  constructor
  · intro hfail
    unfold fromRawPatterns
    have h := fromRawAux_prefix render excluder maker raws [] ErrorContainer.empty [] hfail
    rw [List.append_nil] at h
    rw [h, List.nil_append, fromRawAux_nil]
    have hseq : ErrorContainer.addSeq render ErrorContainer.empty
        ((raws.filter fun x => !excluderSkips excluder x).filterMap
          (makerInvalidPart maker)) =
        ErrorContainer.addAll render
          ((raws.filter fun x => !excluderSkips excluder x).filterMap
            (makerInvalidPart maker)) := rfl
    rw [hseq, addAll_anyErrors]
    by_cases hemp : ((raws.filter fun x => !excluderSkips excluder x).filterMap
        (makerInvalidPart maker)).isEmpty = true
    · rw [hemp]
      rfl
    · have hemp' : ((raws.filter fun x => !excluderSkips excluder x).filterMap
          (makerInvalidPart maker)).isEmpty = false := by
        cases h2 : ((raws.filter fun x => !excluderSkips excluder x).filterMap
            (makerInvalidPart maker)).isEmpty
        · rfl
        · exact absurd h2 hemp
      rw [hemp']
      rfl
  · intro raws1 r raws2 e hsplit hfail hskip hmk
    unfold fromRawPatterns
    rw [hsplit]
    have h := fromRawAux_prefix render excluder maker raws1 (r :: raws2)
      ErrorContainer.empty [] hfail
    rw [h, fromRawAux_cons]
    rw [hskip, if_neg (by simp), hmk]

/-- C6 witness: on the raw routes `[0, 5, 1]` (route `5` excluded, route `0`
builds a pattern, route `1` is invalid) construction raises the batch failure
holding the aggregated invalid; inserting route `2`, whose maker fails with
another exception, propagates that exception immediately. -/
theorem claim_c6_witness :
    fromRawPatterns (fun v : String => v) (some fun n : Nat => n == 5)
      (fun n : Nat => if n = 0 then MakerResult.ok (100 : Nat) else
        if n = 1 then MakerResult.invalid "bad" else MakerResult.failure ())
      [0, 5, 1] =
      BuildOutcome.foundInvalid (ErrorContainer.addAll (fun v : String => v) ["bad"]) ∧
    fromRawPatterns (fun v : String => v) (some fun n : Nat => n == 5)
      (fun n : Nat => if n = 0 then MakerResult.ok (100 : Nat) else
        if n = 1 then MakerResult.invalid "bad" else MakerResult.failure ())
      [0, 5, 2, 1] =
      BuildOutcome.exception () := by
  constructor
  · have h := (claim_c6_orchestrator_construction (fun v : String => v)
      (some fun n : Nat => n == 5)
      (fun n : Nat => if n = 0 then MakerResult.ok (100 : Nat) else
        if n = 1 then MakerResult.invalid "bad" else MakerResult.failure ())
      [0, 5, 1]).1 (by decide)
    exact h.trans (by decide)
  · exact (claim_c6_orchestrator_construction (fun v : String => v)
      (some fun n : Nat => n == 5)
      (fun n : Nat => if n = 0 then MakerResult.ok (100 : Nat) else
        if n = 1 then MakerResult.invalid "bad" else MakerResult.failure ())
      [0, 5, 2, 1]).2 [0, 5] 2 [1] () rfl (by decide) (by decide) (by decide)

/--
One scenario as the `run_scenarios` loops consume it: the invocations its full
sweep performs, its `exit_early` flag, and the effect of its full sweep on the
shared aggregator.  Both loops of `run_scenarios` have exactly this shape.
-/
structure SweepStep (V : Type) where
  events : List RunEvent
  exit_early : Bool
  sweep : ErrorContainer V → ErrorContainer V

/-- The common loop shape of both halves of `TestRunner.run_scenarios`. -/
def runSweepsAux (errors : ErrorContainer V) :
    List (SweepStep V) → List RunEvent × ErrorContainer V × Option (ErrorContainer V)
  | [] => ([], errors, none)
  | st :: rest =>
    let errors2 := st.sweep errors
    if st.exit_early && errors2.anyErrors then (st.events, errors2, some errors2)
    else
      let r := runSweepsAux errors2 rest
      (st.events ++ r.1, r.2.1, r.2.2)

/-- The aggregator after a sequence of full sweeps. -/
def sweepState (errors : ErrorContainer V) (steps : List (SweepStep V)) :
    ErrorContainer V :=
  steps.foldl (fun acc st => st.sweep acc) errors

/-- The sweeps `run_scenarios` performs, in running order: every pattern
scenario, then every function scenario. -/
def scenarioSteps (render : V → String) (auth : Ann) (patterns : List RunnerPattern)
    (pattern_scenarios : List (PatternScenario V))
    (function_scenarios : List (FunctionScenario V)) : List (SweepStep V) :=
  (pattern_scenarios.enum.map fun is =>
    ⟨patternSweepEvents auth patterns.enum is.1, is.2.exit_early,
     patternSweep render auth patterns.enum is.2⟩) ++
  (function_scenarios.enum.map fun is =>
    ⟨functionSweepEvents auth patterns.enum is.1, is.2.exit_early,
     functionSweep render auth patterns.enum is.2⟩)

theorem sweepState_append (errors : ErrorContainer V)
    (l1 l2 : List (SweepStep V)) :
    sweepState errors (l1 ++ l2) = sweepState (sweepState errors l1) l2 := by
  simp [sweepState]

theorem scenarioSteps_events (render : V → String) (auth : Ann)
    (patterns : List RunnerPattern) (pscens : List (PatternScenario V))
    (fscens : List (FunctionScenario V)) :
    (scenarioSteps render auth patterns pscens fscens).map (fun st => st.events) =
      allSweepEvents auth patterns pscens fscens := by
  simp only [scenarioSteps, allSweepEvents, List.map_append, List.map_map]
  rfl

theorem runSweepsAux_cons (errors : ErrorContainer V) (st : SweepStep V)
    (rest : List (SweepStep V)) :
    runSweepsAux errors (st :: rest) =
      (if st.exit_early && (st.sweep errors).anyErrors then
        (st.events, st.sweep errors, some (st.sweep errors))
      else
        (st.events ++ (runSweepsAux (st.sweep errors) rest).1,
         (runSweepsAux (st.sweep errors) rest).2.1,
         (runSweepsAux (st.sweep errors) rest).2.2)) := rfl

theorem runPatternScenariosAux_cons (render : V → String) (auth : Ann)
    (patterns : List (Nat × RunnerPattern)) (errors : ErrorContainer V)
    (si : Nat) (s : PatternScenario V) (rest : List (Nat × PatternScenario V)) :
    runPatternScenariosAux render auth patterns errors ((si, s) :: rest) =
      (if s.exit_early && (patternSweep render auth patterns s errors).anyErrors then
        (patternSweepEvents auth patterns si,
         patternSweep render auth patterns s errors,
         some (patternSweep render auth patterns s errors))
      else
        (patternSweepEvents auth patterns si ++
          (runPatternScenariosAux render auth patterns
            (patternSweep render auth patterns s errors) rest).1,
         (runPatternScenariosAux render auth patterns
           (patternSweep render auth patterns s errors) rest).2.1,
         (runPatternScenariosAux render auth patterns
           (patternSweep render auth patterns s errors) rest).2.2)) := rfl

theorem runFunctionScenariosAux_cons (render : V → String) (auth : Ann)
    (patterns : List (Nat × RunnerPattern)) (errors : ErrorContainer V)
    (si : Nat) (s : FunctionScenario V) (rest : List (Nat × FunctionScenario V)) :
    runFunctionScenariosAux render auth patterns errors ((si, s) :: rest) =
      (if s.exit_early && (functionSweep render auth patterns s errors).anyErrors then
        (functionSweepEvents auth patterns si,
         functionSweep render auth patterns s errors,
         some (functionSweep render auth patterns s errors))
      else
        (functionSweepEvents auth patterns si ++
          (runFunctionScenariosAux render auth patterns
            (functionSweep render auth patterns s errors) rest).1,
         (runFunctionScenariosAux render auth patterns
           (functionSweep render auth patterns s errors) rest).2.1,
         (runFunctionScenariosAux render auth patterns
           (functionSweep render auth patterns s errors) rest).2.2)) := rfl

/-- The first loop of `run_scenarios` is an instance of the common shape. -/
theorem runPatternScenariosAux_eq_sweeps (render : V → String) (auth : Ann)
    (patterns : List (Nat × RunnerPattern)) :
    ∀ (scens : List (Nat × PatternScenario V)) (errors : ErrorContainer V),
      runPatternScenariosAux render auth patterns errors scens =
        runSweepsAux errors (scens.map fun is =>
          ⟨patternSweepEvents auth patterns is.1, is.2.exit_early,
           patternSweep render auth patterns is.2⟩) := by
  intro scens
  induction scens with
  | nil => intro errors; rfl
  | cons p rest ih =>
    intro errors
    obtain ⟨si, s⟩ := p
    rw [List.map_cons, runPatternScenariosAux_cons, runSweepsAux_cons]
    dsimp only
    rw [ih]

/-- The second loop of `run_scenarios` is an instance of the common shape. -/
theorem runFunctionScenariosAux_eq_sweeps (render : V → String) (auth : Ann)
    (patterns : List (Nat × RunnerPattern)) :
    ∀ (scens : List (Nat × FunctionScenario V)) (errors : ErrorContainer V),
      runFunctionScenariosAux render auth patterns errors scens =
        runSweepsAux errors (scens.map fun is =>
          ⟨functionSweepEvents auth patterns is.1, is.2.exit_early,
           functionSweep render auth patterns is.2⟩) := by
  intro scens
  induction scens with
  | nil => intro errors; rfl
  | cons p rest ih =>
    intro errors
    obtain ⟨si, s⟩ := p
    rw [List.map_cons, runFunctionScenariosAux_cons, runSweepsAux_cons]
    dsimp only
    rw [ih]

/-- When no sweep's post-state triggers an early exit, the loop performs every
full sweep in order, ends with the accumulated aggregator, and raises
nothing. -/
theorem runSweepsAux_no_stop :
    ∀ (steps : List (SweepStep V)) (errors : ErrorContainer V),
      (∀ i (h : i < steps.length),
        ¬((steps.get ⟨i, h⟩).exit_early = true ∧
          (sweepState errors (steps.take (i+1))).anyErrors = true)) →
      runSweepsAux errors steps =
        ((steps.map fun st => st.events).flatten, sweepState errors steps, none) := by
  intro steps
  induction steps with
  | nil => intro errors h; rfl
  | cons st rest ih =>
    intro errors h
    have h0 := h 0 (Nat.succ_pos _)
    have hcond : (st.exit_early && (st.sweep errors).anyErrors) = false := by
      cases he : st.exit_early
      · rfl
      · cases ha : (st.sweep errors).anyErrors
        · rfl
        · exact absurd ⟨he, ha⟩ h0
    rw [runSweepsAux_cons, hcond]
    rw [if_neg (by simp)]
    rw [ih (st.sweep errors) (fun i hi => h (i+1) (Nat.succ_lt_succ hi))]
    rfl

/-- The first sweep whose post-state is non-empty while its scenario is marked
`exit_early` completes in full, raises the aggregator at once, and nothing
after it runs. -/
theorem runSweepsAux_stop :
    ∀ (steps1 : List (SweepStep V)) (st : SweepStep V) (steps2 : List (SweepStep V))
      (errors : ErrorContainer V),
      (∀ i (h : i < steps1.length),
        ¬((steps1.get ⟨i, h⟩).exit_early = true ∧
          (sweepState errors (steps1.take (i+1))).anyErrors = true)) →
      st.exit_early = true →
      (sweepState errors (steps1 ++ [st])).anyErrors = true →
      runSweepsAux errors (steps1 ++ st :: steps2) =
        (((steps1 ++ [st]).map fun s2 => s2.events).flatten,
         sweepState errors (steps1 ++ [st]),
         some (sweepState errors (steps1 ++ [st]))) := by
  intro steps1
  induction steps1 with
  | nil =>
    intro st steps2 errors hpre he ha
    rw [List.nil_append, runSweepsAux_cons]
    have hc : (st.exit_early && (st.sweep errors).anyErrors) = true := by
      rw [he]
      exact ha
    rw [hc, if_pos rfl]
    simp [sweepState]
  | cons q steps1t ih =>
    intro st steps2 errors hpre he ha
    have h0 := hpre 0 (Nat.succ_pos _)
    have hcond : (q.exit_early && (q.sweep errors).anyErrors) = false := by
      cases hqe : q.exit_early
      · rfl
      · cases hqa : (q.sweep errors).anyErrors
        · rfl
        · exact absurd ⟨hqe, hqa⟩ h0
    rw [List.cons_append, runSweepsAux_cons, hcond]
    rw [if_neg (by simp)]
    rw [ih st steps2 (q.sweep errors)
      (fun i hi => hpre (i+1) (Nat.succ_lt_succ hi)) he ha]
    rfl

/-- The two-loop body of `run_scenarios` over the common sweep shape: pattern
sweeps, then (if nothing was raised) function sweeps, then the final raise of
a non-empty aggregator. -/
def twoPhaseOutcome (errors : ErrorContainer V) (l1 l2 : List (SweepStep V)) :
    RunOutcome V :=
  match (runSweepsAux errors l1).2.2 with
  | some ec => ⟨(runSweepsAux errors l1).1, some ec⟩
  | none =>
    match (runSweepsAux (runSweepsAux errors l1).2.1 l2).2.2 with
    | some ec =>
      ⟨(runSweepsAux errors l1).1 ++
        (runSweepsAux (runSweepsAux errors l1).2.1 l2).1, some ec⟩
    | none =>
      ⟨(runSweepsAux errors l1).1 ++
        (runSweepsAux (runSweepsAux errors l1).2.1 l2).1,
       if (runSweepsAux (runSweepsAux errors l1).2.1 l2).2.1.anyErrors then
         some (runSweepsAux (runSweepsAux errors l1).2.1 l2).2.1
       else none⟩

/-- `run_scenarios` is the two-phase composition of its sweeps. -/
theorem runScenarios_eq_twoPhase (render : V → String) (auth : Ann)
    (patterns : List RunnerPattern) (pscens : List (PatternScenario V))
    (fscens : List (FunctionScenario V)) :
    runScenarios render auth patterns pscens fscens =
      twoPhaseOutcome ErrorContainer.empty
        (pscens.enum.map fun is =>
          ⟨patternSweepEvents auth patterns.enum is.1, is.2.exit_early,
           patternSweep render auth patterns.enum is.2⟩)
        (fscens.enum.map fun is =>
          ⟨functionSweepEvents auth patterns.enum is.1, is.2.exit_early,
           functionSweep render auth patterns.enum is.2⟩) := by
  simp only [runScenarios, twoPhaseOutcome]
  rw [runPatternScenariosAux_eq_sweeps, runFunctionScenariosAux_eq_sweeps]

/-- Full characterisation of the two-phase loop: with no early-exit condition
anywhere, every sweep runs and the final raise happens iff the aggregator is
non-empty; with the first early-exit condition at index `j`, sweep `j`
completes in full, the aggregator is raised at once, and nothing later runs. -/
theorem twoPhase_spec (l1 l2 : List (SweepStep V)) (errors : ErrorContainer V) :
    ((∀ i (h : i < (l1 ++ l2).length),
        ¬(((l1 ++ l2).get ⟨i, h⟩).exit_early = true ∧
          (sweepState errors ((l1 ++ l2).take (i+1))).anyErrors = true)) →
      twoPhaseOutcome errors l1 l2 =
        ⟨((l1 ++ l2).map fun st => st.events).flatten,
         if (sweepState errors (l1 ++ l2)).anyErrors then
           some (sweepState errors (l1 ++ l2))
         else none⟩) ∧
    (∀ j (h : j < (l1 ++ l2).length),
      (∀ i (h2 : i < (l1 ++ l2).length), i < j →
        ¬(((l1 ++ l2).get ⟨i, h2⟩).exit_early = true ∧
          (sweepState errors ((l1 ++ l2).take (i+1))).anyErrors = true)) →
      ((l1 ++ l2).get ⟨j, h⟩).exit_early = true →
      (sweepState errors ((l1 ++ l2).take (j+1))).anyErrors = true →
      twoPhaseOutcome errors l1 l2 =
        ⟨(((l1 ++ l2).map fun st => st.events).take (j+1)).flatten,
         some (sweepState errors ((l1 ++ l2).take (j+1)))⟩) := by
  constructor
  · intro hno
    have hnoL : ∀ i (hi : i < l1.length),
        ¬((l1.get ⟨i, hi⟩).exit_early = true ∧
          (sweepState errors (l1.take (i+1))).anyErrors = true) := by
      intro i hi hcontra
      have hlt : i < (l1 ++ l2).length := by rw [List.length_append]; omega
      apply hno i hlt
      refine ⟨?_, ?_⟩
      · have hg : (l1 ++ l2).get ⟨i, hlt⟩ = l1.get ⟨i, hi⟩ := by
          simp [List.getElem_append_left hi]
        rw [hg]; exact hcontra.1
      · have ht : (l1 ++ l2).take (i+1) = l1.take (i+1) :=
          List.take_append_of_le_length (by omega)
        rw [ht]; exact hcontra.2
    have hnoR : ∀ i (hi : i < l2.length),
        ¬((l2.get ⟨i, hi⟩).exit_early = true ∧
          (sweepState (sweepState errors l1) (l2.take (i+1))).anyErrors = true) := by
      intro i hi hcontra
      have hlt : l1.length + i < (l1 ++ l2).length := by
        rw [List.length_append]; omega
      apply hno (l1.length + i) hlt
      refine ⟨?_, ?_⟩
      · have hg : (l1 ++ l2).get ⟨l1.length + i, hlt⟩ = l2.get ⟨i, hi⟩ := by
          simp only [List.get_eq_getElem]
          rw [List.getElem_append_right (by omega)]
          congr 1
          omega
        rw [hg]; exact hcontra.1
      · have harith : l1.length + i + 1 = l1.length + (i+1) := by omega
        have ht : (l1 ++ l2).take (l1.length + i + 1) = l1 ++ l2.take (i+1) := by
          rw [harith]
          exact List.take_append (i+1)
        rw [ht, sweepState_append]
        exact hcontra.2
    have h1 := runSweepsAux_no_stop l1 errors hnoL
    have h2 := runSweepsAux_no_stop l2 (sweepState errors l1) hnoR
    unfold twoPhaseOutcome
    rw [h1]
    dsimp only
    rw [h2]
    dsimp only
    rw [sweepState_append, List.map_append, List.flatten_append]
  · intro j h hstops hflag hany
    by_cases hj : j < l1.length
    · have hdec : l1 = l1.take j ++ l1.get ⟨j, hj⟩ :: l1.drop (j+1) := by
        conv_lhs => rw [← List.take_append_drop j l1]
        rw [List.drop_eq_getElem_cons hj]
        simp
      have hlentake : (l1.take j).length = j := by
        simp [List.length_take]; omega
      have hnoT : ∀ i (hi : i < (l1.take j).length),
          ¬(((l1.take j).get ⟨i, hi⟩).exit_early = true ∧
            (sweepState errors ((l1.take j).take (i+1))).anyErrors = true) := by
        intro i hi hcontra
        have hij : i < j := by rw [hlentake] at hi; exact hi
        have hil : i < l1.length := by omega
        have hlt : i < (l1 ++ l2).length := by rw [List.length_append]; omega
        apply hstops i hlt hij
        refine ⟨?_, ?_⟩
        · have hg1 : (l1.take j).get ⟨i, hi⟩ = l1.get ⟨i, hil⟩ := by
            simp only [List.get_eq_getElem]
            rw [List.getElem_take]
          have hg : (l1 ++ l2).get ⟨i, hlt⟩ = l1.get ⟨i, hil⟩ := by
            simp [List.getElem_append_left hil]
          rw [hg, ← hg1]; exact hcontra.1
        · have ht1 : (l1.take j).take (i+1) = l1.take (i+1) := by
            rw [List.take_take]
            congr 1
            omega
          have ht : (l1 ++ l2).take (i+1) = l1.take (i+1) :=
            List.take_append_of_le_length (by omega)
          rw [ht, ← ht1]; exact hcontra.2
      have hflag' : (l1.get ⟨j, hj⟩).exit_early = true := by
        have hg : (l1 ++ l2).get ⟨j, h⟩ = l1.get ⟨j, hj⟩ := by
          simp [List.getElem_append_left hj]
        rw [← hg]; exact hflag
      have hconc : l1.take j ++ [l1.get ⟨j, hj⟩] = l1.take (j+1) := by
        rw [← List.take_concat_get l1 j hj, List.concat_eq_append]
        simp
      have htj : (l1 ++ l2).take (j+1) = l1.take (j+1) :=
        List.take_append_of_le_length (by omega)
      have hany' : (sweepState errors
          (l1.take j ++ [l1.get ⟨j, hj⟩])).anyErrors = true := by
        rw [hconc, ← htj]; exact hany
      have hstop := runSweepsAux_stop (l1.take j) (l1.get ⟨j, hj⟩)
        (l1.drop (j+1)) errors hnoT hflag' hany'
      have hrun1 : runSweepsAux errors l1 =
          (((l1.take (j+1)).map fun s2 => s2.events).flatten,
           sweepState errors (l1.take (j+1)),
           some (sweepState errors (l1.take (j+1)))) := by
        conv_lhs => rw [hdec]
        rw [hstop, hconc]
      unfold twoPhaseOutcome
      rw [hrun1]
      dsimp only
      rw [← List.map_take, htj]
    · have hj2lt : j - l1.length < l2.length := by
        have := h
        rw [List.length_append] at this
        omega
      have hjeq : j = l1.length + (j - l1.length) := by omega
      have hnoL : ∀ i (hi : i < l1.length),
          ¬((l1.get ⟨i, hi⟩).exit_early = true ∧
            (sweepState errors (l1.take (i+1))).anyErrors = true) := by
        intro i hi hcontra
        have hlt : i < (l1 ++ l2).length := by rw [List.length_append]; omega
        apply hstops i hlt (by omega)
        refine ⟨?_, ?_⟩
        · have hg : (l1 ++ l2).get ⟨i, hlt⟩ = l1.get ⟨i, hi⟩ := by
            simp [List.getElem_append_left hi]
          rw [hg]; exact hcontra.1
        · have ht : (l1 ++ l2).take (i+1) = l1.take (i+1) :=
            List.take_append_of_le_length (by omega)
          rw [ht]; exact hcontra.2
      have h1 := runSweepsAux_no_stop l1 errors hnoL
      have hdec : l2 = l2.take (j - l1.length) ++
          l2.get ⟨j - l1.length, hj2lt⟩ :: l2.drop (j - l1.length + 1) := by
        conv_lhs => rw [← List.take_append_drop (j - l1.length) l2]
        rw [List.drop_eq_getElem_cons hj2lt]
        simp
      have hlentake : (l2.take (j - l1.length)).length = j - l1.length := by
        simp [List.length_take]; omega
      have hnoT : ∀ i (hi : i < (l2.take (j - l1.length)).length),
          ¬(((l2.take (j - l1.length)).get ⟨i, hi⟩).exit_early = true ∧
            (sweepState (sweepState errors l1)
              ((l2.take (j - l1.length)).take (i+1))).anyErrors = true) := by
        intro i hi hcontra
        have hij : i < j - l1.length := by rw [hlentake] at hi; exact hi
        have hil : i < l2.length := by omega
        have hlt : l1.length + i < (l1 ++ l2).length := by
          rw [List.length_append]; omega
        apply hstops (l1.length + i) hlt (by omega)
        refine ⟨?_, ?_⟩
        · have hg1 : (l2.take (j - l1.length)).get ⟨i, hi⟩ = l2.get ⟨i, hil⟩ := by
            simp only [List.get_eq_getElem]
            rw [List.getElem_take]
          have hg : (l1 ++ l2).get ⟨l1.length + i, hlt⟩ = l2.get ⟨i, hil⟩ := by
            simp only [List.get_eq_getElem]
            rw [List.getElem_append_right (by omega)]
            congr 1
            omega
          rw [hg, ← hg1]; exact hcontra.1
        · have ht1 : (l2.take (j - l1.length)).take (i+1) = l2.take (i+1) := by
            rw [List.take_take]
            congr 1
            omega
          have harith : l1.length + i + 1 = l1.length + (i+1) := by omega
          have ht : (l1 ++ l2).take (l1.length + i + 1) = l1 ++ l2.take (i+1) := by
            rw [harith]
            exact List.take_append (i+1)
          rw [ht, sweepState_append, ← ht1]
          exact hcontra.2
      have hflag' : (l2.get ⟨j - l1.length, hj2lt⟩).exit_early = true := by
        have hg : (l1 ++ l2).get ⟨j, h⟩ = l2.get ⟨j - l1.length, hj2lt⟩ := by
          simp only [List.get_eq_getElem]
          rw [List.getElem_append_right (by omega)]
        rw [← hg]; exact hflag
      have hconc : l2.take (j - l1.length) ++ [l2.get ⟨j - l1.length, hj2lt⟩] =
          l2.take (j - l1.length + 1) := by
        rw [← List.take_concat_get l2 (j - l1.length) hj2lt, List.concat_eq_append]
        simp
      have htj : (l1 ++ l2).take (j+1) = l1 ++ l2.take (j - l1.length + 1) := by
        have harith : j + 1 = l1.length + (j - l1.length + 1) := by omega
        rw [harith]
        exact List.take_append (j - l1.length + 1)
      have hany' : (sweepState (sweepState errors l1)
          (l2.take (j - l1.length) ++
            [l2.get ⟨j - l1.length, hj2lt⟩])).anyErrors = true := by
        rw [hconc, ← sweepState_append, ← htj]
        exact hany
      have hstop := runSweepsAux_stop (l2.take (j - l1.length))
        (l2.get ⟨j - l1.length, hj2lt⟩) (l2.drop (j - l1.length + 1))
        (sweepState errors l1) hnoT hflag' hany'
      have hrun2 : runSweepsAux (sweepState errors l1) l2 =
          (((l2.take (j - l1.length + 1)).map fun s2 => s2.events).flatten,
           sweepState (sweepState errors l1) (l2.take (j - l1.length + 1)),
           some (sweepState (sweepState errors l1)
             (l2.take (j - l1.length + 1)))) := by
        conv_lhs => rw [hdec]
        rw [hstop, hconc]
      unfold twoPhaseOutcome
      rw [h1]
      dsimp only
      rw [hrun2]
      dsimp only
      rw [← List.map_take, htj, List.map_append, List.flatten_append,
        sweepState_append]

/--
C5: in `TestRunner.run_scenarios` every scenario completes its full sweep over
all non-excluded patterns (and, for function scenarios, all their non-excluded
relevant functions) before its `exit_early` flag is evaluated.  When no
scenario's completed sweep triggers the early exit, every scenario's full
sweep appears in the trace in order and the batch failure is raised at the
end iff the aggregator is non-empty; when the first early-exit condition
holds at scenario `j` (its flag is set and the aggregator is non-empty after
its full sweep), the trace consists of exactly the first `j+1` whole sweeps —
sweep `j` included in full, never aborted mid-way — and the batch failure
carrying the aggregator is raised immediately, so no later scenario runs.
-/
theorem claim_c5_full_sweeps_before_exit (render : V → String) (auth : Ann)
    (patterns : List RunnerPattern) (pscens : List (PatternScenario V))
    (fscens : List (FunctionScenario V)) :
    ((∀ i (h : i < (scenarioSteps render auth patterns pscens fscens).length),
        ¬(((scenarioSteps render auth patterns pscens fscens).get
            ⟨i, h⟩).exit_early = true ∧
          (sweepState ErrorContainer.empty
            ((scenarioSteps render auth patterns pscens fscens).take
              (i+1))).anyErrors = true)) →
      runScenarios render auth patterns pscens fscens =
        ⟨(allSweepEvents auth patterns pscens fscens).flatten,
         if (sweepState ErrorContainer.empty
              (scenarioSteps render auth patterns pscens fscens)).anyErrors then
           some (sweepState ErrorContainer.empty
             (scenarioSteps render auth patterns pscens fscens))
         else none⟩) ∧
    (∀ j (h : j < (scenarioSteps render auth patterns pscens fscens).length),
      (∀ i (h2 : i < (scenarioSteps render auth patterns pscens fscens).length),
        i < j →
        ¬(((scenarioSteps render auth patterns pscens fscens).get
            ⟨i, h2⟩).exit_early = true ∧
          (sweepState ErrorContainer.empty
            ((scenarioSteps render auth patterns pscens fscens).take
              (i+1))).anyErrors = true)) →
      ((scenarioSteps render auth patterns pscens fscens).get
        ⟨j, h⟩).exit_early = true →
      (sweepState ErrorContainer.empty
        ((scenarioSteps render auth patterns pscens fscens).take
          (j+1))).anyErrors = true →
      runScenarios render auth patterns pscens fscens =
        ⟨((allSweepEvents auth patterns pscens fscens).take (j+1)).flatten,
         some (sweepState ErrorContainer.empty
           ((scenarioSteps render auth patterns pscens fscens).take (j+1)))⟩) := by
  have hbridge := runScenarios_eq_twoPhase render auth patterns pscens fscens
  have hspec := twoPhase_spec
    (pscens.enum.map fun is =>
      ⟨patternSweepEvents auth patterns.enum is.1, is.2.exit_early,
       patternSweep render auth patterns.enum is.2⟩)
    (fscens.enum.map fun is =>
      ⟨functionSweepEvents auth patterns.enum is.1, is.2.exit_early,
       functionSweep render auth patterns.enum is.2⟩)
    (ErrorContainer.empty : ErrorContainer V)
  constructor
  · intro hno
    rw [hbridge, ← scenarioSteps_events render auth patterns pscens fscens]
    exact hspec.1 hno
  · intro j h hstops hflag hany
    rw [hbridge, ← scenarioSteps_events render auth patterns pscens fscens]
    exact hspec.2 j h hstops hflag hany

/-- A pattern that excludes nothing, with no relevant functions. -/
def c5Pat : RunnerPattern := ⟨fun _ => false, fun _ _ => false, []⟩

/-- A quiet pattern scenario that records one violation. -/
def c5S0 : PatternScenario String := ⟨false, fun _ _ => ["a"]⟩

/-- An `exit_early` pattern scenario that records one violation. -/
def c5S1 : PatternScenario String := ⟨true, fun _ _ => ["b"]⟩

/-- A function scenario that would record a violation if it ever ran. -/
def c5F0 : FunctionScenario String := ⟨true, fun _ _ _ => ["c"]⟩

/-- C5 witness: with two pattern scenarios — the first quiet, the second
`exit_early`, both recording violations — and a function scenario after them,
the run performs exactly the first two full sweeps and raises the aggregator
at once, never reaching the function scenario. -/
theorem claim_c5_witness :
    runScenarios (fun v : String => v) Ann.any [c5Pat] [c5S0, c5S1] [c5F0] =
      ⟨((allSweepEvents Ann.any [c5Pat] [c5S0, c5S1] [c5F0]).take 2).flatten,
       some (sweepState ErrorContainer.empty
         ((scenarioSteps (fun v : String => v) Ann.any [c5Pat]
           [c5S0, c5S1] [c5F0]).take 2))⟩ :=
  (claim_c5_full_sweeps_before_exit (fun v : String => v) Ann.any [c5Pat]
    [c5S0, c5S1] [c5F0]).2 1 (by decide) (by decide) (by decide) (by decide)
